import Mathlib

/-!
Verification of the dataforge record-matching and clustering engine.

This file gives a shallow embedding, in Lean 4, of the core matching code of
the repository:

* the barcode-normalisation and exact-match SQL pipelines of
  src/dataforge/matching.py (functions named like matchesForOzSkus below mirror
  the CTEs of the corresponding Python functions, with the punta-disabled
  assembly, in which MatchesQuery.assemble returns the two SQL fragments
  unchanged; the punta fragments only add enrichment columns),
* the similarity-scoring pipeline of src/dataforge/similarity_matching.py
  (search_similar_matches and its helper _split_large_component),
* the merge-code helpers of src/dataforge/matching_helpers.py
  (generate_merge_code and mark_duplicate_sizes).

SQL NULL-able values are modelled as Option, SQL three-valued boolean logic is
modelled explicitly (sqlAnd, sqlOr, sqlNot), JSON barcode lists are modelled
as Lean lists of strings, DataFrames as lists of structures, and numeric
DOUBLE scores as rationals.  ORDER BY clauses are modelled by a deterministic
insertion sort on a totally ordered sort key; where the SQL or pandas order of
tied rows is unspecified, the stated theorems do not depend on the tie order.
-/

namespace DataForge

/-! ## SQL three-valued boolean logic -/

/-- Three-valued SQL AND: FALSE dominates, otherwise NULL is contagious. -/
def sqlAnd : Option Bool → Option Bool → Option Bool
  | some false, _ => some false
  | _, some false => some false
  | some true, some true => some true
  | _, _ => none

/-- Three-valued SQL OR: TRUE dominates, otherwise NULL is contagious. -/
def sqlOr : Option Bool → Option Bool → Option Bool
  | some true, _ => some true
  | _, some true => some true
  | some false, some false => some false
  | _, _ => none

/-- Three-valued SQL NOT. -/
def sqlNot : Option Bool → Option Bool
  | none => none
  | some b => some (!b)

/-- A CASE WHEN branch fires only when its condition evaluates to TRUE. -/
def sqlTrue (o : Option Bool) : Bool := o = some true

/-- The matched_by CASE expression shared by all four resolver queries in
src/dataforge/matching.py (lines 218-223, 341-346, 462-467, 605-610):
CASE WHEN o.is_primary AND w.is_primary THEN primary-primary,
WHEN o.is_primary AND NOT w.is_primary THEN primary-any,
WHEN NOT o.is_primary AND w.is_primary THEN any-primary, ELSE any-any END.
The two arguments are the (possibly NULL) primary-hit flags of the OZ and WB
side of the joined row. -/
def matchedByCase (o w : Option Bool) : String :=
  if sqlTrue (sqlAnd o w) then "primary↔primary"
  else if sqlTrue (sqlAnd o (sqlNot w)) then "primary↔any"
  else if sqlTrue (sqlAnd (sqlNot o) w) then "any↔primary"
  else "any↔any"

/-- The match_score CASE expression shared by all four resolver queries:
CASE WHEN o.is_primary AND w.is_primary THEN 100
WHEN o.is_primary OR w.is_primary THEN 80 ELSE 60 END. -/
def matchScoreCase (o w : Option Bool) : Nat :=
  if sqlTrue (sqlAnd o w) then 100
  else if sqlTrue (sqlOr o w) then 80
  else 60

/-! ## Deterministic sorting machinery (model of ORDER BY / sort_values) -/

/-- Sort a list by a key into a linearly ordered type, ascending.  This is the
deterministic model used for every ORDER BY and sort_values occurrence. -/
def sortByKey {α κ : Type} [LinearOrder κ] (f : α → κ) (l : List α) : List α :=
  List.insertionSort (fun a b => f a ≤ f b) l

theorem sortByKey_pairwise {α κ : Type} [LinearOrder κ] (f : α → κ) (l : List α) :
    List.Pairwise (fun a b => f a ≤ f b) (sortByKey f l) :=
  @List.sorted_insertionSort _ _ _ ⟨fun a b => le_total (f a) (f b)⟩
    ⟨fun _ _ _ h h2 => le_trans h h2⟩ l

theorem sortByKey_perm {α κ : Type} [LinearOrder κ] (f : α → κ) (l : List α) :
    (sortByKey f l).Perm l :=
  List.perm_insertionSort _ l

theorem mem_sortByKey {α κ : Type} [LinearOrder κ] {f : α → κ} {l : List α} {a : α} :
    a ∈ sortByKey f l ↔ a ∈ l :=
  (sortByKey_perm f l).mem_iff

/-- Numeric encoding of a string used as a sort key (any total order on
strings yields the same stated properties; the encoded order is total). -/
def strRank (s : String) : Nat :=
  s.data.foldl (fun acc c => acc * 1114112 + (c.toNat + 1)) 0

/-- Whitespace test used by trimming. -/
def isSpaceChar (c : Char) : Bool :=
  c == ' ' || c == '\t' || c == '\n' || c == '\r'

/-- Model of str.strip / SQL TRIM: drop leading and trailing whitespace. -/
def trimStr (s : String) : String :=
  ⟨(((s.data.dropWhile isSpaceChar).reverse.dropWhile isSpaceChar).reverse)⟩

/-- Decimal parse of a digit string (model of int(s) / CAST(s AS UBIGINT) on
the decimal sku literals these code paths receive). -/
def parseNat (s : String) : Option Nat :=
  if s.data ≠ [] ∧ s.data.all Char.isDigit then
    some (s.data.foldl (fun acc c => acc * 10 + (c.toNat - 48)) 0)
  else none

/-! ## ROW_NUMBER ranking and per-key limiting

Model of the ranked / WHERE rn-filter / final ORDER BY tail shared by the
four resolver queries:
ROW_NUMBER() OVER (PARTITION BY key ORDER BY ...) AS rn,
then SELECT ... WHERE (? IS NULL OR rn <= ?) ORDER BY key, ... .
The bound parameters are [None, 0] when the caller passes no positive limit
and [L, L] otherwise (matching.py lines 244, 367, 490, 633). -/

/-- Pair each element with its 1-based position (the rn column). -/
def enum1 {α : Type} (l : List α) : List (Nat × α) := List.enumFrom 1 l

/-- The WHERE (? IS NULL OR rn <= ?) filter over rn-numbered rows, with the
parameter-building convention of the Python callers: a missing or
non-positive limit keeps every row. -/
def keepLimit {α : Type} (limit : Option Int) (l : List α) : List α :=
  match limit with
  | none => l
  | some L => if L ≤ 0 then l else ((enum1 l).filter (fun p => (p.1 : Int) ≤ L)).map Prod.snd

/-- The rows of one PARTITION BY block, ordered by the partition ORDER BY. -/
def sortPartition {α κ ρ : Type} [DecidableEq κ] [LinearOrder ρ]
    (keyOf : α → κ) (rankKey : α → ρ) (rows : List α) (k : κ) : List α :=
  sortByKey rankKey (rows.filter (fun r => decide (keyOf r = k)))

/-- The full ranked output: number the rows of every partition, apply the
rn-limit, and emit partitions in ascending key order (the final ORDER BY
lists the partition key first, then exactly the partition ORDER BY columns,
so the output is the concatenation of the limited partitions). -/
def rankedOutput {α κ ρ : Type} [DecidableEq κ] [LinearOrder ρ]
    (keyOf : α → κ) (keyRank : κ → Nat) (rankKey : α → ρ)
    (limit : Option Int) (rows : List α) : List α :=
  (sortByKey keyRank ((rows.map keyOf).dedup)).flatMap
    (fun k => keepLimit limit (sortPartition keyOf rankKey rows k))

theorem keepLimit_sublist {α : Type} (limit : Option Int) (l : List α) :
    (keepLimit limit l).Sublist l := by
  match limit with
  | none => exact List.Sublist.refl l
  | some L =>
    simp only [keepLimit]
    by_cases h : L ≤ 0
    · simp [h]
    · simp only [h, if_false]
      have h1 : ((enum1 l).filter (fun p => (p.1 : Int) ≤ L)).Sublist (enum1 l) :=
        List.filter_sublist _
      have h2 := h1.map Prod.snd
      have h3 : (enum1 l).map Prod.snd = l := by
        simp only [enum1]
        induction l with
        | nil => rfl
        | cons a t ih =>
          have : ∀ (s : Nat) (t : List α), (List.enumFrom s t).map Prod.snd = t := by
            intro s t
            induction t generalizing s with
            | nil => rfl
            | cons b u ih2 => simp [List.enumFrom_cons, ih2]
          exact this 1 (a :: t)
      rwa [h3] at h2

theorem mem_keepLimit {α : Type} {limit : Option Int} {l : List α} {a : α}
    (h : a ∈ keepLimit limit l) : a ∈ l :=
  (keepLimit_sublist limit l).subset h

theorem mem_sortPartition {α κ ρ : Type} [DecidableEq κ] [LinearOrder ρ]
    {keyOf : α → κ} {rankKey : α → ρ} {rows : List α} {k : κ} {a : α}
    (h : a ∈ sortPartition keyOf rankKey rows k) : a ∈ rows ∧ keyOf a = k := by
  rw [sortPartition, mem_sortByKey, List.mem_filter] at h
  exact ⟨h.1, by simpa using h.2⟩

theorem mem_rankedOutput {α κ ρ : Type} [DecidableEq κ] [LinearOrder ρ]
    {keyOf : α → κ} {keyRank : κ → Nat} {rankKey : α → ρ}
    {limit : Option Int} {rows : List α} {a : α}
    (h : a ∈ rankedOutput keyOf keyRank rankKey limit rows) : a ∈ rows := by
  rw [rankedOutput, List.mem_flatMap] at h
  obtain ⟨k, _, hmem⟩ := h
  exact (mem_sortPartition (mem_keepLimit hmem)).1

theorem enumFrom_ge {α : Type} :
    ∀ (u : List α) (m : Nat), ∀ p ∈ List.enumFrom m u, m ≤ p.1 := by
  intro u
  induction u with
  | nil =>
    intro m p hp
    cases hp
  | cons b v ihv =>
    intro m p hp
    rw [List.enumFrom_cons] at hp
    rcases List.mem_cons.mp hp with hp | hp
    · subst hp; exact le_refl m
    · exact le_trans (Nat.le_succ m) (ihv (m + 1) p hp)

theorem enumFrom_filter_lt_map_snd {α : Type} :
    ∀ (l : List α) (s n : Nat),
      ((List.enumFrom s l).filter (fun p => decide (p.1 < s + n))).map Prod.snd = l.take n := by
  intro l
  induction l with
  | nil =>
    intro s n
    simp
  | cons a t ih =>
    intro s n
    cases n with
    | zero =>
      have hall : ∀ p ∈ List.enumFrom s (a :: t), ¬ p.1 < s + 0 := by
        intro p hp
        have := enumFrom_ge (a :: t) s p hp
        omega
      rw [List.filter_eq_nil_iff.mpr (fun p hp => by simpa using hall p hp)]
      simp
    | succ m =>
      rw [List.enumFrom_cons, List.filter_cons]
      have hfire : (decide ((s, a).1 < s + (m + 1))) = true := decide_eq_true (by omega)
      rw [hfire]
      simp only [if_true, List.map_cons, List.take_succ_cons]
      have hcongr : (List.enumFrom (s + 1) t).filter (fun p => decide (p.1 < s + (m + 1)))
          = (List.enumFrom (s + 1) t).filter (fun p => decide (p.1 < (s + 1) + m)) := by
        congr 1
        funext p
        simp only [decide_eq_decide]
        omega
      rw [hcongr, ih (s + 1) m]

theorem keepLimit_some_unfold {α : Type} (l : List α) (L : Int) :
    keepLimit (some L) l
      = if L ≤ 0 then l
        else ((enum1 l).filter (fun p => decide ((p.1 : Int) ≤ L))).map Prod.snd := rfl

/-- With parameters [L, L] and 0 < L, the rn filter keeps exactly the first
L.toNat rows of the ranked partition. -/
theorem keepLimit_pos_eq_take {α : Type} (l : List α) (L : Int) (hL : 0 < L) :
    keepLimit (some L) l = l.take L.toNat := by
  rw [keepLimit_some_unfold, if_neg (not_le.mpr hL)]
  have hcongr : (enum1 l).filter (fun p => decide ((p.1 : Int) ≤ L))
      = (enum1 l).filter (fun p => decide (p.1 < 1 + L.toNat)) := by
    congr 1
    funext p
    simp only [decide_eq_decide]
    omega
  rw [hcongr]
  exact enumFrom_filter_lt_map_snd l 1 L.toNat

theorem keepLimit_none {α : Type} (l : List α) : keepLimit none l = l := rfl

theorem keepLimit_nonpos {α : Type} (l : List α) (L : Int) (hL : L ≤ 0) :
    keepLimit (some L) l = l := by
  rw [keepLimit_some_unfold, if_pos hL]

theorem keepLimit_nil {α : Type} (limit : Option Int) : keepLimit limit ([] : List α) = [] :=
  List.sublist_nil.mp (keepLimit_sublist limit ([] : List α))

theorem filter_flatMap_keyed {κ α : Type} [DecidableEq κ]
    (f : κ → List α) (keyOf : α → κ)
    (hkeyed : ∀ k0, ∀ r ∈ f k0, keyOf r = k0) :
    ∀ (keys : List κ), keys.Nodup → ∀ (k : κ),
      (keys.flatMap f).filter (fun r => decide (keyOf r = k))
        = if k ∈ keys then f k else [] := by
  intro keys
  induction keys with
  | nil =>
    intro _ k
    simp
  | cons k0 ks ih =>
    intro hnd k
    rw [List.flatMap_cons, List.filter_append]
    by_cases hk0 : k = k0
    · subst hk0
      have hself : (f k).filter (fun r => decide (keyOf r = k)) = f k :=
        List.filter_eq_self.mpr (fun r hr => by simp [hkeyed k r hr])
      have hrest : (ks.flatMap f).filter (fun r => decide (keyOf r = k)) = [] := by
        rw [ih (List.nodup_cons.mp hnd).2 k]
        rw [if_neg (List.nodup_cons.mp hnd).1]
      rw [hself, hrest, List.append_nil, if_pos (List.mem_cons_self _ _)]
    · have hfirst : (f k0).filter (fun r => decide (keyOf r = k)) = [] := by
        rw [List.filter_eq_nil_iff]
        intro r hr hc
        exact hk0 (by rw [← hkeyed k0 r hr]; exact (decide_eq_true_eq.mp hc).symm)
      rw [hfirst, List.nil_append, ih (List.nodup_cons.mp hnd).2 k]
      by_cases hks : k ∈ ks
      · rw [if_pos hks, if_pos (List.mem_cons_of_mem k0 hks)]
      · rw [if_neg hks, if_neg (by simp [hk0, hks])]

/-- Restricting the ranked output to one input key gives exactly that key's
limited, partition-ordered block. -/
theorem rankedOutput_filter_key {α κ ρ : Type} [DecidableEq κ] [LinearOrder ρ]
    (keyOf : α → κ) (keyRank : κ → Nat) (rankKey : α → ρ)
    (limit : Option Int) (rows : List α) (k : κ) :
    (rankedOutput keyOf keyRank rankKey limit rows).filter (fun r => decide (keyOf r = k))
      = keepLimit limit (sortPartition keyOf rankKey rows k) := by
  have hkeyed : ∀ k0, ∀ r ∈ keepLimit limit (sortPartition keyOf rankKey rows k0), keyOf r = k0 :=
    fun k0 r hr => (mem_sortPartition (mem_keepLimit hr)).2
  have hnodup : (sortByKey keyRank ((rows.map keyOf).dedup)).Nodup :=
    (sortByKey_perm keyRank _).nodup_iff.mpr (List.nodup_dedup _)
  rw [rankedOutput,
    filter_flatMap_keyed _ keyOf hkeyed (sortByKey keyRank ((rows.map keyOf).dedup)) hnodup k]
  by_cases hk : k ∈ sortByKey keyRank ((rows.map keyOf).dedup)
  · rw [if_pos hk]
  · rw [if_neg hk]
    have hfil : rows.filter (fun r => decide (keyOf r = k)) = [] := by
      rw [List.filter_eq_nil_iff]
      intro r hr hc
      apply hk
      rw [mem_sortByKey, List.mem_dedup]
      exact List.mem_map.mpr ⟨r, hr, by simpa using hc⟩
    rw [sortPartition, hfil]
    exact (keepLimit_nil limit).symm

/-! ## Data model: the read-only relational inputs -/

/-- A row of the oz_products table (columns used by the matching queries).
The barcode_primary field is the column written "barcode-primary" in SQL. -/
structure OzProduct where
  oz_sku : Nat
  oz_vendor_code : String
  barcode_primary : Option String
deriving DecidableEq, Repr

/-- A row of the oz_products_full table.  The barcodes field is the decoded
JSON list: json_each(COALESCE(f.barcodes, [])) enumerates exactly its
elements, so a NULL column is the empty list. -/
structure OzProductFull where
  oz_vendor_code : String
  barcodes : List String
  primary_barcode : Option String
  russian_size : Option String
deriving DecidableEq, Repr

/-- A row of the wb_products table (columns used by matching and similarity). -/
structure WbProduct where
  wb_sku : Nat
  barcodes : List String
  primary_barcode : Option String
  seller_category : Option String
  gender : Option String
deriving DecidableEq, Repr

/-- A row of the optional punta_google similarity-attribute table. -/
structure PuntaGoogleRow where
  wb_sku : Nat
  season : Option String
  color : Option String
  lacing_type : Option String
  material_short : Option String
  mega_last : Option String
  best_last : Option String
  new_last : Option String
  model_name : Option String
deriving DecidableEq, Repr

/-- The analytical store visible to one invocation.  punta_google_exists and
punta_tables_exist model the _table_exists checks for the optional
punta_google and punta_barcodes/punta_products_codes tables; punta_barcodes
maps external_code to barcode. -/
structure Db where
  oz_products : List OzProduct
  oz_products_full : List OzProductFull
  wb_products : List WbProduct
  punta_google : List PuntaGoogleRow
  punta_google_exists : Bool
  punta_barcodes : List (String × String)
  punta_tables_exist : Bool
deriving DecidableEq, Repr

/-! ## Barcode normalisation (the oz_barcodes and wb_barcodes CTEs) -/

/-- A row of the normalised oz_barcodes CTE. -/
structure OzBRow where
  oz_sku : Nat
  oz_vendor_code : String
  barcode : String
  is_primary : Bool
  oz_primary_barcode : Option String
  oz_manufacturer_size : Option String
deriving DecidableEq, Repr

/-- The LEFT JOIN oz_products_full f ON f.oz_vendor_code = ... lookup
(the extended-attributes table is 1:1 with the vendor code). -/
def findFull (db : Db) (vc : String) : Option OzProductFull :=
  db.oz_products_full.find? (fun f => decide (f.oz_vendor_code = vc))

/-- The oz_full_barcodes rows of one product: one row per listed barcode,
marked primary iff it equals f.primary_barcode (SQL equality against a NULL
primary is never TRUE, so a NULL primary marks nothing). -/
def ozListedRows (p : OzProduct) (fOpt : Option OzProductFull) : List OzBRow :=
  match fOpt with
  | none => []
  | some f =>
    f.barcodes.map (fun b =>
      { oz_sku := p.oz_sku
        oz_vendor_code := p.oz_vendor_code
        barcode := b
        is_primary := decide (f.primary_barcode = some b)
        oz_primary_barcode := f.primary_barcode
        oz_manufacturer_size := f.russian_size })

/-- The oz_primary_extra rows of one product: one synthesised primary row for
the oz_products "barcode-primary" value when it is non-NULL and absent from
the listed barcodes of the extended table. -/
def ozExtraRows (p : OzProduct) (fOpt : Option OzProductFull) : List OzBRow :=
  match p.barcode_primary with
  | none => []
  | some bp =>
    let listed := match fOpt with | none => [] | some f => f.barcodes
    if bp ∈ listed then []
    else [{ oz_sku := p.oz_sku
            oz_vendor_code := p.oz_vendor_code
            barcode := bp
            is_primary := true
            oz_primary_barcode := some bp
            oz_manufacturer_size := none }]

/-- The oz_barcodes CTE restricted to one product: UNION ALL of the listed and
synthesised rows, then SELECT DISTINCT (rows of distinct products are always
distinct, so the global DISTINCT acts product by product). -/
def ozBarcodesFor (p : OzProduct) (fOpt : Option OzProductFull) : List OzBRow :=
  (ozListedRows p fOpt ++ ozExtraRows p fOpt).dedup

/-- The full oz_barcodes CTE; inputs restricts oz_products to the queried keys
(the JOIN inp of _matches_for_oz_skus), none takes every product (the
oz_full CTE of the wb/barcode/external queries). -/
def ozBarcodesTable (db : Db) (inputs : Option (List Nat)) : List OzBRow :=
  (match inputs with
   | none => db.oz_products
   | some l => db.oz_products.filter (fun p => decide (p.oz_sku ∈ l))).flatMap
    (fun p => ozBarcodesFor p (findFull db p.oz_vendor_code))

/-- A row of the wb_barcodes CTE. -/
structure WbBRow where
  wb_sku : Nat
  barcode : String
  is_primary : Bool
deriving DecidableEq, Repr

/-- The wb_barcodes rows of one product: one row per listed barcode, marked
primary iff it equals wp.primary_barcode.  There is no DISTINCT and no
synthesised primary row on the WB side. -/
def wbBarcodesFor (w : WbProduct) : List WbBRow :=
  w.barcodes.map (fun b =>
    { wb_sku := w.wb_sku
      barcode := b
      is_primary := decide (w.primary_barcode = some b) })

/-- The full wb_barcodes CTE, optionally restricted to the queried keys. -/
def wbBarcodesTable (db : Db) (inputs : Option (List Nat)) : List WbBRow :=
  (match inputs with
   | none => db.wb_products
   | some l => db.wb_products.filter (fun w => decide (w.wb_sku ∈ l))).flatMap wbBarcodesFor

/-! ## The two inner-join resolvers (_matches_for_oz_skus, _matches_for_wb_skus) -/

/-- A row of the joined CTE of the two sku resolvers; input_key is the
partition key (oz_sku for the OZ query, wb_sku for the WB query). -/
structure MatchRow where
  input_key : Nat
  oz_sku : Nat
  wb_sku : Nat
  oz_vendor_code : String
  barcode_hit : String
  oz_is_primary_hit : Bool
  wb_is_primary_hit : Bool
  oz_manufacturer_size : Option String
  matched_by : String
  match_score : Nat
deriving DecidableEq, Repr

/-- Build one joined row for the OZ-keyed query. -/
def mkOzRow (o : OzBRow) (w : WbBRow) : MatchRow :=
  { input_key := o.oz_sku
    oz_sku := o.oz_sku
    wb_sku := w.wb_sku
    oz_vendor_code := o.oz_vendor_code
    barcode_hit := w.barcode
    oz_is_primary_hit := o.is_primary
    wb_is_primary_hit := w.is_primary
    oz_manufacturer_size := o.oz_manufacturer_size
    matched_by := matchedByCase (some o.is_primary) (some w.is_primary)
    match_score := matchScoreCase (some o.is_primary) (some w.is_primary) }

/-- Build one joined row for the WB-keyed query. -/
def mkWbRow (o : OzBRow) (w : WbBRow) : MatchRow :=
  { mkOzRow o w with input_key := w.wb_sku, barcode_hit := w.barcode }

/-- The joined CTE of _matches_for_oz_skus: inner join of the input-restricted
oz_barcodes against all wb_barcodes on barcode equality. -/
def ozJoined (db : Db) (inputs : List Nat) : List MatchRow :=
  (ozBarcodesTable db (some inputs)).flatMap (fun o =>
    ((wbBarcodesTable db none).filter (fun w => decide (w.barcode = o.barcode))).map (mkOzRow o))

/-- The joined CTE of _matches_for_wb_skus: inner join of the input-restricted
wb_barcodes against the all-products oz_barcodes on barcode equality. -/
def wbJoined (db : Db) (inputs : List Nat) : List MatchRow :=
  (wbBarcodesTable db (some inputs)).flatMap (fun w =>
    ((ozBarcodesTable db none).filter (fun o => decide (o.barcode = w.barcode))).map
      (fun o => mkWbRow o w))

/-- The ORDER BY key of the OZ query partitions: match_score DESC, wb_sku ASC. -/
def ozRankKey (r : MatchRow) : Lex (Int × Nat) := toLex (-(r.match_score : Int), r.wb_sku)

/-- The ORDER BY key of the WB query partitions: match_score DESC, oz_sku ASC. -/
def wbRankKey (r : MatchRow) : Lex (Int × Nat) := toLex (-(r.match_score : Int), r.oz_sku)

/-- Model of _matches_for_oz_skus (punta disabled): joined, ranked by
ROW_NUMBER over (PARTITION BY oz_sku ORDER BY match_score DESC, wb_sku),
rn-limited, output ordered by oz_sku, match_score DESC, wb_sku. -/
def matchesForOzSkus (db : Db) (inputs : List Nat) (limit : Option Int) : List MatchRow :=
  rankedOutput (fun r => r.input_key) id ozRankKey limit (ozJoined db inputs)

/-- Model of _matches_for_wb_skus (punta disabled). -/
def matchesForWbSkus (db : Db) (inputs : List Nat) (limit : Option Int) : List MatchRow :=
  rankedOutput (fun r => r.input_key) id wbRankKey limit (wbJoined db inputs)

/-! ## The two outer-join resolvers (_matches_for_barcodes, _matches_for_external_codes) -/

/-- A row of the joined CTE of the barcode / external-code queries; either
side of the join may be unresolved (NULL).  input_code is the partition key
(the trimmed input barcode, or the input external code). -/
structure BcRow where
  input_code : String
  oz_sku : Option Nat
  wb_sku : Option Nat
  oz_vendor_code : Option String
  barcode_hit : String
  oz_is_primary_hit : Option Bool
  wb_is_primary_hit : Option Bool
  matched_by : String
  match_score : Nat
deriving DecidableEq, Repr

/-- LEFT JOIN both barcode tables against one probe barcode: an empty side
contributes a single NULL row; rows with no resolution on either side are
dropped (WHERE o.oz_sku IS NOT NULL OR w.wb_sku IS NOT NULL). -/
def leftJoinSides (os : List OzBRow) (ws : List WbBRow) :
    List (Option OzBRow × Option WbBRow) :=
  let osL := if os.isEmpty then [(none : Option OzBRow)] else os.map some
  let wsL := if ws.isEmpty then [(none : Option WbBRow)] else ws.map some
  osL.flatMap (fun o => wsL.filterMap (fun w =>
    if o.isNone ∧ w.isNone then none else some (o, w)))

/-- Build one joined row of the outer-join queries; the two primary-hit flags
are NULL exactly when the corresponding side is unresolved, and the CASE
expressions evaluate over those possibly-NULL flags. -/
def mkBcRow (ikey hit : String) (o : Option OzBRow) (w : Option WbBRow) : BcRow :=
  { input_code := ikey
    oz_sku := o.map OzBRow.oz_sku
    wb_sku := w.map WbBRow.wb_sku
    oz_vendor_code := o.map OzBRow.oz_vendor_code
    barcode_hit := hit
    oz_is_primary_hit := o.map OzBRow.is_primary
    wb_is_primary_hit := w.map WbBRow.is_primary
    matched_by := matchedByCase (o.map OzBRow.is_primary) (w.map WbBRow.is_primary)
    match_score := matchScoreCase (o.map OzBRow.is_primary) (w.map WbBRow.is_primary) }

/-- The joined CTE of _matches_for_barcodes: the inp CTE trims inputs and
drops empties, then LEFT JOINs both sides on the probe barcode. -/
def bcJoined (db : Db) (inputs : List String) : List BcRow :=
  ((inputs.map trimStr).filter (fun s => decide (s ≠ ""))).flatMap (fun i =>
    (leftJoinSides
        ((ozBarcodesTable db none).filter (fun o => decide (o.barcode = i)))
        ((wbBarcodesTable db none).filter (fun w => decide (w.barcode = i)))).map
      (fun ow => mkBcRow i i ow.1 ow.2))

/-- Sort key of a nullable key column, ascending with NULLS LAST. -/
def optNatKey : Option Nat → Lex (Nat × Nat)
  | none => toLex (1, 0)
  | some n => toLex (0, n)

/-- The ORDER BY key of the outer-join partitions:
match_score DESC, oz_sku ASC, wb_sku ASC. -/
def bcRankKey (r : BcRow) : Lex (Int × Lex (Lex (Nat × Nat) × Lex (Nat × Nat))) :=
  toLex (-(r.match_score : Int), toLex (optNatKey r.oz_sku, optNatKey r.wb_sku))

/-- Model of _matches_for_barcodes (punta disabled). -/
def matchesForBarcodes (db : Db) (inputs : List String) (limit : Option Int) : List BcRow :=
  rankedOutput (fun r => r.input_code) strRank bcRankKey limit (bcJoined db inputs)

/-- The joined CTE of _matches_for_external_codes: the matched CTE resolves
each trimmed, non-empty input external code to its punta barcodes, then LEFT
JOINs both sides on each such barcode. -/
def extJoined (db : Db) (codes : List String) : List BcRow :=
  ((codes.map trimStr).filter (fun s => decide (s ≠ ""))).flatMap (fun c =>
    (db.punta_barcodes.filter (fun eb => decide (eb.1 = c))).flatMap (fun eb =>
      (leftJoinSides
          ((ozBarcodesTable db none).filter (fun o => decide (o.barcode = eb.2)))
          ((wbBarcodesTable db none).filter (fun w => decide (w.barcode = eb.2)))).map
        (fun ow => mkBcRow c eb.2 ow.1 ow.2)))

/-- Model of _matches_for_external_codes: empty input returns an empty frame
before any table check; missing punta tables raise; otherwise rank and limit
like the barcode query. -/
def matchesForExternalCodes (db : Db) (codes : List String) (limit : Option Int) :
    Except String (List BcRow) :=
  if codes.isEmpty then .ok []
  else if !db.punta_tables_exist then
    .error "punta external_code search unavailable: punta tables missing"
  else .ok (rankedOutput (fun r => r.input_code) strRank bcRankKey limit (extJoined db codes))

/-! ## Public operations (find_wb_by_oz, find_oz_by_wb, find_by_barcodes, search_matches) -/

/-- Model of _normalize_barcodes: strip each token and drop empties. -/
def normalizeBarcodes (vals : List String) : List String :=
  (vals.map trimStr).filter (fun s => decide (s ≠ ""))

/-- CAST(value AS UBIGINT) over a list of inputs; a non-numeric value is a
store-level conversion error. -/
def castSkus : List String → Except String (List Nat)
  | [] => .ok []
  | s :: rest =>
    match parseNat s with
    | none => .error "could not cast value to UBIGINT"
    | some n => (castSkus rest).map (fun l => n :: l)

/-- Model of find_wb_by_oz: an empty key raises; otherwise the OZ resolver
runs on the singleton input. -/
def findWbByOz (db : Db) (oz_sku : String) (limit : Option Int) :
    Except String (List MatchRow) :=
  if oz_sku = "" then .error "oz_sku is empty"
  else (castSkus [oz_sku]).map (fun l => matchesForOzSkus db l limit)

/-- Model of find_oz_by_wb. -/
def findOzByWb (db : Db) (wb_sku : String) (limit : Option Int) :
    Except String (List MatchRow) :=
  if wb_sku = "" then .error "wb_sku is empty"
  else (castSkus [wb_sku]).map (fun l => matchesForWbSkus db l limit)

/-- Model of find_by_barcodes: an empty normalised set raises. -/
def findByBarcodes (db : Db) (barcodes : List String) (limit : Option Int) :
    Except String (List BcRow) :=
  let ns := normalizeBarcodes barcodes
  if ns.isEmpty then .error "barcodes are empty"
  else .ok (matchesForBarcodes db ns limit)

/-- Result frame of search_matches (sku-keyed rows or code-keyed rows). -/
inductive SearchResult where
  | skuRows : List MatchRow → SearchResult
  | bcRows : List BcRow → SearchResult
deriving DecidableEq, Repr

/-- Model of search_matches: inputs are normalised like barcodes; an empty
normalised set returns an empty frame (it does not raise); then dispatch on
input_type; an unknown type raises. -/
def searchMatches (db : Db) (input_type : String) (inputs : List String)
    (limit : Option Int) : Except String SearchResult :=
  let vals := normalizeBarcodes inputs
  if vals.isEmpty then .ok (.skuRows [])
  else if input_type = "oz_sku" then
    (castSkus vals).map (fun l => .skuRows (matchesForOzSkus db l limit))
  else if input_type = "wb_sku" then
    (castSkus vals).map (fun l => .skuRows (matchesForWbSkus db l limit))
  else if input_type = "barcode" then .ok (.bcRows (matchesForBarcodes db vals limit))
  else if input_type = "punta_external_code" then
    (matchesForExternalCodes db vals limit).map .bcRows
  else if input_type = "oz_vendor_code" then
    .ok (.skuRows (matchesForOzSkus db
      (((db.oz_products.filter (fun p => decide (p.oz_vendor_code ∈ vals))).map
        OzProduct.oz_sku).dedup) limit))
  else .error ("Unknown input_type: " ++ input_type)

/-! ## Tier and score classification (claim C1) -/

/-- The tier/score table as the specification states it, for a row whose two
primary-hit flags are both resolved. -/
def tierTable (o w : Bool) (mb : String) (ms : Nat) : Prop :=
  ((o = true ∧ w = true) → (mb = "primary↔primary" ∧ ms = 100)) ∧
  ((o = true ∧ w = false) → (mb = "primary↔any" ∧ ms = 80)) ∧
  ((o = false ∧ w = true) → (mb = "any↔primary" ∧ ms = 80)) ∧
  ((o = false ∧ w = false) → (mb = "any↔any" ∧ ms = 60))

/-- Tier/score behaviour of the outer-join rows: resolved-side pairs follow
the table, while a row with an unresolved side always falls through to the
any-any tier, its score still crediting the resolved primary hit with 80. -/
def bcTierTable (o w : Option Bool) (mb : String) (ms : Nat) : Prop :=
  (∀ ob wb, o = some ob → w = some wb → tierTable ob wb mb ms) ∧
  (o = none → mb = "any↔any" ∧ ms = (if w = some true then 80 else 60)) ∧
  (w = none → mb = "any↔any" ∧ ms = (if o = some true then 80 else 60))

theorem tierTable_case (o w : Bool) :
    tierTable o w (matchedByCase (some o) (some w)) (matchScoreCase (some o) (some w)) := by
  cases o <;> cases w <;> (unfold tierTable; decide)

theorem bcTierTable_case (o w : Option Bool) :
    bcTierTable o w (matchedByCase o w) (matchScoreCase o w) := by
  rcases o with _ | ob
  · rcases w with _ | wb
    · unfold bcTierTable tierTable; decide
    · cases wb <;> (unfold bcTierTable tierTable; decide)
  · rcases w with _ | wb
    · cases ob <;> (unfold bcTierTable tierTable; decide)
    · cases ob <;> cases wb <;> (unfold bcTierTable tierTable; decide)

theorem mem_ozJoined_shape {db : Db} {inputs : List Nat} {r : MatchRow}
    (h : r ∈ ozJoined db inputs) : ∃ o w, r = mkOzRow o w := by
  rw [ozJoined, List.mem_flatMap] at h
  obtain ⟨o, _, hr⟩ := h
  rw [List.mem_map] at hr
  obtain ⟨w, _, hr⟩ := hr
  exact ⟨o, w, hr.symm⟩

theorem mem_wbJoined_shape {db : Db} {inputs : List Nat} {r : MatchRow}
    (h : r ∈ wbJoined db inputs) : ∃ o w, r = mkWbRow o w := by
  rw [wbJoined, List.mem_flatMap] at h
  obtain ⟨w, _, hr⟩ := h
  rw [List.mem_map] at hr
  obtain ⟨o, _, hr⟩ := hr
  exact ⟨o, w, hr.symm⟩

theorem mem_bcJoined_shape {db : Db} {inputs : List String} {r : BcRow}
    (h : r ∈ bcJoined db inputs) : ∃ i hit o w, r = mkBcRow i hit o w := by
  rw [bcJoined, List.mem_flatMap] at h
  obtain ⟨i, _, hr⟩ := h
  rw [List.mem_map] at hr
  obtain ⟨ow, _, hr⟩ := hr
  exact ⟨i, i, ow.1, ow.2, hr.symm⟩

theorem mem_extJoined_shape {db : Db} {codes : List String} {r : BcRow}
    (h : r ∈ extJoined db codes) : ∃ i hit o w, r = mkBcRow i hit o w := by
  rw [extJoined, List.mem_flatMap] at h
  obtain ⟨c, _, hr⟩ := h
  rw [List.mem_flatMap] at hr
  obtain ⟨eb, _, hr⟩ := hr
  rw [List.mem_map] at hr
  obtain ⟨ow, _, hr⟩ := hr
  exact ⟨c, eb.2, ow.1, ow.2, hr.symm⟩

/-- C1 (amended): every row of the two sku resolvers carries two resolved
primary-hit flags and follows the spec table (both primary: tier
primary-primary, score 100; exactly one primary: the corresponding mixed
tier, score 80; neither: any-any, score 60).  In the barcode and
external-code resolvers a row may have an unresolved NULL side; such a row
always carries tier any-any, while its score is 80 when the resolved side
hit its primary barcode and 60 otherwise; outer-join rows with both sides
resolved follow the table. -/
theorem C1_tier_score :
    (∀ db inputs limit r, r ∈ matchesForOzSkus db inputs limit →
      tierTable r.oz_is_primary_hit r.wb_is_primary_hit r.matched_by r.match_score) ∧
    (∀ db inputs limit r, r ∈ matchesForWbSkus db inputs limit →
      tierTable r.oz_is_primary_hit r.wb_is_primary_hit r.matched_by r.match_score) ∧
    (∀ db inputs limit r, r ∈ matchesForBarcodes db inputs limit →
      bcTierTable r.oz_is_primary_hit r.wb_is_primary_hit r.matched_by r.match_score) ∧
    (∀ db codes limit out r, matchesForExternalCodes db codes limit = Except.ok out →
      r ∈ out →
      bcTierTable r.oz_is_primary_hit r.wb_is_primary_hit r.matched_by r.match_score) := by
  refine ⟨?_, ?_, ?_, ?_⟩
  · intro db inputs limit r hr
    obtain ⟨o, w, he⟩ := mem_ozJoined_shape (mem_rankedOutput hr)
    subst he
    exact tierTable_case o.is_primary w.is_primary
  · intro db inputs limit r hr
    obtain ⟨o, w, he⟩ := mem_wbJoined_shape (mem_rankedOutput hr)
    subst he
    exact tierTable_case o.is_primary w.is_primary
  · intro db inputs limit r hr
    obtain ⟨i, hit, o, w, he⟩ := mem_bcJoined_shape (mem_rankedOutput hr)
    subst he
    exact bcTierTable_case (o.map OzBRow.is_primary) (w.map WbBRow.is_primary)
  · intro db codes limit out r hout hr
    rw [matchesForExternalCodes] at hout
    by_cases hc : codes.isEmpty
    · rw [if_pos hc] at hout
      cases hout
      cases hr
    · rw [if_neg hc] at hout
      by_cases ht : db.punta_tables_exist
      · rw [if_neg (by simp [ht])] at hout
        cases hout
        obtain ⟨i, hit, o, w, he⟩ := mem_extJoined_shape (mem_rankedOutput hr)
        subst he
        exact bcTierTable_case (o.map OzBRow.is_primary) (w.map WbBRow.is_primary)
      · rw [if_pos (by simp [ht])] at hout
        cases hout

/-- Store with one OZ product and one WB product sharing primary barcode B1. -/
def dbC1w : Db :=
  { oz_products := [⟨1, "V-RED-1", some "B1"⟩]
    oz_products_full := [⟨"V-RED-1", ["B1"], some "B1", some "30"⟩]
    wb_products := [⟨2, ["B1"], some "B1", none, none⟩]
    punta_google := []
    punta_google_exists := false
    punta_barcodes := []
    punta_tables_exist := false }

/-- The single row the OZ resolver returns on dbC1w. -/
def rowC1w : MatchRow :=
  { input_key := 1
    oz_sku := 1
    wb_sku := 2
    oz_vendor_code := "V-RED-1"
    barcode_hit := "B1"
    oz_is_primary_hit := true
    wb_is_primary_hit := true
    oz_manufacturer_size := some "30"
    matched_by := "primary↔primary"
    match_score := 100 }

theorem C1_tier_score_witness : tierTable true true "primary↔primary" 100 :=
  C1_tier_score.1 dbC1w [1] none rowC1w (by decide)

/-- Store in which barcode B resolves only on the WB side, via its primary. -/
def dbC1x : Db :=
  { oz_products := []
    oz_products_full := []
    wb_products := [⟨1, ["B"], some "B", none, none⟩]
    punta_google := []
    punta_google_exists := false
    punta_barcodes := []
    punta_tables_exist := false }

/-- C1 is false as stated: in the barcode resolver, probing B yields a row
whose only resolved side (WB) hit via its primary barcode, yet matched_by is
any-any (not any-primary as the claim requires for an exactly-one-primary
row) while match_score is 80 (which the claim ties to the mixed tiers). -/
theorem C1_counterexample :
    (matchesForBarcodes dbC1x ["B"] none).map
        (fun r => (r.oz_is_primary_hit, r.wb_is_primary_hit, r.matched_by, r.match_score))
      = [(none, some true, "any↔any", 80)]
    ∧ ("any↔any" : String) ≠ "any↔primary" := by
  exact ⟨by decide, by decide⟩

/-- A nodup list whose every element equals a, containing a, is [a]. -/
theorem nodup_all_eq {α : Type} {l : List α} {a : α}
    (hnd : l.Nodup) (ha : a ∈ l) (hall : ∀ x ∈ l, x = a) : l = [a] := by
  cases l with
  | nil => cases ha
  | cons x t =>
    have hx : x = a := hall x (List.mem_cons_self _ _)
    subst hx
    have ht : t = [] := by
      cases t with
      | nil => rfl
      | cons y u =>
        have hy : y = x := hall y (List.mem_cons_of_mem _ (List.mem_cons_self _ _))
        exact absurd (hy ▸ List.mem_cons_self y u)
          (fun hm => (List.nodup_cons.mp hnd).1 (hy ▸ hm))
    rw [ht]

/-- After DISTINCT, a predicate satisfied by exactly one row value is counted
exactly once. -/
theorem countP_dedup_unique {α : Type} [DecidableEq α] (l : List α) (p : α → Bool) (a : α)
    (ha : a ∈ l) (hpa : p a = true) (huniq : ∀ x ∈ l, p x = true → x = a) :
    (l.dedup).countP p = 1 := by
  rw [List.countP_eq_length_filter]
  have hfil : (l.dedup).filter p = [a] := by
    apply nodup_all_eq ((List.nodup_dedup l).filter p)
    · rw [List.mem_filter, List.mem_dedup]
      exact ⟨ha, hpa⟩
    · intro x hx
      rw [List.mem_filter, List.mem_dedup] at hx
      exact huniq x hx.1 hx.2
  rw [hfil]
  rfl

/-- C3 (amended): the OZ normaliser marks listed barcodes primary against the
extended-table primary value and synthesises a row for the base-table primary
value; when the two sources agree (or the extended row is absent), a product
with a known primary has exactly one primary row.  The WB normaliser emits
only listed barcodes, with no synthesis: the number of primary rows equals
the number of occurrences of the primary value in the barcode list, and in
particular a WB product whose primary is missing from its list has no
primary row at all. -/
theorem C3_primary_rows :
    (∀ (p : OzProduct) (f : OzProductFull) (v : String),
      p.barcode_primary = some v → f.primary_barcode = some v →
      (ozBarcodesFor p (some f)).countP (fun r => r.is_primary) = 1) ∧
    (∀ (p : OzProduct) (v : String), p.barcode_primary = some v →
      (ozBarcodesFor p none).countP (fun r => r.is_primary) = 1) ∧
    (∀ (w : WbProduct) (v : String), w.primary_barcode = some v →
      (wbBarcodesFor w).countP (fun r => r.is_primary) = w.barcodes.count v) ∧
    (∀ (w : WbProduct) (v : String), w.primary_barcode = some v → v ∉ w.barcodes →
      (wbBarcodesFor w).countP (fun r => r.is_primary) = 0) := by
  have hwb : ∀ (w : WbProduct) (v : String), w.primary_barcode = some v →
      (wbBarcodesFor w).countP (fun r => r.is_primary) = w.barcodes.count v := by
    intro w v hv
    rw [wbBarcodesFor, List.countP_map]
    rw [show List.count v w.barcodes
        = w.barcodes.countP (fun b => b == v) from rfl]
    apply List.countP_congr
    intro b _
    simp only [Function.comp_apply, hv]
    by_cases hbv : b = v
    · subst hbv; simp
    · have hvb : ¬ v = b := fun h => hbv h.symm
      simp [hbv, hvb]
  refine ⟨?_, ?_, hwb, ?_⟩
  · intro p f v hp hf
    rw [ozBarcodesFor]
    by_cases hv : v ∈ f.barcodes
    · have hextra : ozExtraRows p (some f) = [] := by
        rw [ozExtraRows, hp]
        simp [hv]
      rw [hextra, List.append_nil]
      rw [ozListedRows]
      refine countP_dedup_unique _ _
        { oz_sku := p.oz_sku
          oz_vendor_code := p.oz_vendor_code
          barcode := v
          is_primary := true
          oz_primary_barcode := f.primary_barcode
          oz_manufacturer_size := f.russian_size } ?_ ?_ ?_
      · rw [List.mem_map]
        refine ⟨v, hv, ?_⟩
        simp [hf]
      · rfl
      · intro x hx hpx
        rw [List.mem_map] at hx
        obtain ⟨b, hb, he⟩ := hx
        have hdec : decide (f.primary_barcode = some b) = true := by
          rw [← he] at hpx
          exact hpx
        have hbv : b = v := by
          have h2 := decide_eq_true_eq.mp hdec
          rw [hf] at h2
          exact (Option.some_injective _ h2).symm
        subst hbv
        rw [← he]
        simp [hf]
    · have hextra : ozExtraRows p (some f)
          = [{ oz_sku := p.oz_sku
               oz_vendor_code := p.oz_vendor_code
               barcode := v
               is_primary := true
               oz_primary_barcode := some v
               oz_manufacturer_size := none }] := by
        rw [ozExtraRows, hp]
        simp [hv]
      rw [hextra]
      refine countP_dedup_unique _ _
        { oz_sku := p.oz_sku
          oz_vendor_code := p.oz_vendor_code
          barcode := v
          is_primary := true
          oz_primary_barcode := some v
          oz_manufacturer_size := none } ?_ ?_ ?_
      · exact List.mem_append_right _ (List.mem_singleton.mpr rfl)
      · rfl
      · intro x hx hpx
        rcases List.mem_append.mp hx with hxl | hxr
        · rw [ozListedRows, List.mem_map] at hxl
          obtain ⟨b, hb, he⟩ := hxl
          exfalso
          have hdec : decide (f.primary_barcode = some b) = true := by
            rw [← he] at hpx
            exact hpx
          have h2 := decide_eq_true_eq.mp hdec
          rw [hf] at h2
          exact hv ((Option.some_injective _ h2).symm ▸ hb)
        · exact (List.mem_singleton.mp hxr)
  · intro p v hp
    rw [ozBarcodesFor, ozListedRows, ozExtraRows, hp]
    simp
  · intro w v hv hmem
    rw [hwb w v hv]
    exact List.count_eq_zero.mpr hmem

/-- A WB product whose declared primary P is absent from its barcode list,
plus an OZ product whose two primary sources disagree (full-table primary X
in the list, base-table primary Y outside it). -/
def wbC3x : WbProduct := ⟨1, ["A"], some "P", none, none⟩

def ozC3x : OzProduct := ⟨1, "V", some "Y"⟩

def ozfC3x : OzProductFull := ⟨"V", ["X"], some "X", none⟩

/-- C3 is false as stated: the WB normaliser synthesises nothing, so this WB
product with a known primary barcode has zero primary rows, and the OZ
product with disagreeing primary sources gets two primary rows. -/
theorem C3_counterexample :
    (wbBarcodesFor wbC3x).countP (fun r => r.is_primary) = 0
    ∧ (ozBarcodesFor ozC3x (some ozfC3x)).countP (fun r => r.is_primary) = 2
    ∧ (0 : Nat) ≠ 1 ∧ (2 : Nat) ≠ 1 := by
  exact ⟨by decide, by decide, by decide, by decide⟩

theorem C3_primary_rows_witness :
    (ozBarcodesFor ⟨1, "V", some "B1"⟩ (some ⟨"V", ["B1", "B2"], some "B1", none⟩)).countP
      (fun r => r.is_primary) = 1 :=
  C3_primary_rows.1 ⟨1, "V", some "B1"⟩ ⟨"V", ["B1", "B2"], some "B1", none⟩ "B1" rfl rfl

/-! ## Ranking, truncation and final ordering (claim C2) -/

theorem rankedOutput_pairwise_nat {α ρ : Type} [LinearOrder ρ]
    (keyOf : α → Nat) (rankKey : α → ρ) (limit : Option Int) (rows : List α) :
    List.Pairwise (fun a b => toLex (keyOf a, rankKey a) ≤ toLex (keyOf b, rankKey b))
      (rankedOutput keyOf id rankKey limit rows) := by
  have hkeyed : ∀ k0, ∀ r ∈ keepLimit limit (sortPartition keyOf rankKey rows k0), keyOf r = k0 :=
    fun k0 r hr => (mem_sortPartition (mem_keepLimit hr)).2
  rw [rankedOutput]
  rw [List.pairwise_flatMap]
  constructor
  · intro k _
    have hsorted : List.Pairwise (fun a b => rankKey a ≤ rankKey b)
        (sortPartition keyOf rankKey rows k) := sortByKey_pairwise rankKey _
    have hsub := List.Pairwise.sublist
      (keepLimit_sublist limit (sortPartition keyOf rankKey rows k)) hsorted
    refine hsub.imp_of_mem ?_
    intro a b ha hb hle
    have hka := hkeyed k a ha
    have hkb := hkeyed k b hb
    rw [Prod.Lex.le_iff]
    exact Or.inr ⟨by rw [hka, hkb], hle⟩
  · have hkeys : List.Pairwise (fun a b : Nat => a < b)
        (sortByKey id ((rows.map keyOf).dedup)) := by
      have hle : List.Pairwise (fun a b : Nat => id a ≤ id b)
          (sortByKey id ((rows.map keyOf).dedup)) := sortByKey_pairwise id _
      have hnd : (sortByKey id ((rows.map keyOf).dedup)).Nodup :=
        (sortByKey_perm id _).nodup_iff.mpr (List.nodup_dedup _)
      exact List.Sorted.lt_of_le hle hnd
    refine hkeys.imp_of_mem ?_
    intro k1 k2 _ _ hlt x hx y hy
    rw [Prod.Lex.le_iff]
    exact Or.inl (by rw [hkeyed k1 x hx, hkeyed k2 y hy]; exact hlt)

/-- Ordering of the full ranked output for an arbitrary partition-key type:
partition ranks ascending, with rows of one partition ordered by the
partition ORDER BY key. -/
theorem rankedOutput_pairwise_gen {α κ ρ : Type} [DecidableEq κ] [LinearOrder ρ]
    (keyOf : α → κ) (keyRank : κ → Nat) (rankKey : α → ρ)
    (limit : Option Int) (rows : List α) :
    List.Pairwise (fun a b => keyRank (keyOf a) ≤ keyRank (keyOf b)
        ∧ (keyOf a = keyOf b → rankKey a ≤ rankKey b))
      (rankedOutput keyOf keyRank rankKey limit rows) := by
  have hkeyed : ∀ k0, ∀ r ∈ keepLimit limit (sortPartition keyOf rankKey rows k0), keyOf r = k0 :=
    fun k0 r hr => (mem_sortPartition (mem_keepLimit hr)).2
  rw [rankedOutput]
  rw [List.pairwise_flatMap]
  constructor
  · intro k _
    have hsorted : List.Pairwise (fun a b => rankKey a ≤ rankKey b)
        (sortPartition keyOf rankKey rows k) := sortByKey_pairwise rankKey _
    have hsub := List.Pairwise.sublist
      (keepLimit_sublist limit (sortPartition keyOf rankKey rows k)) hsorted
    refine hsub.imp_of_mem ?_
    intro a b ha hb hle
    exact ⟨by rw [hkeyed k a ha, hkeyed k b hb], fun _ => hle⟩
  · have hle : List.Pairwise (fun k1 k2 => keyRank k1 ≤ keyRank k2)
        (sortByKey keyRank ((rows.map keyOf).dedup)) := sortByKey_pairwise keyRank _
    have hnd : List.Pairwise (fun k1 k2 : κ => k1 ≠ k2)
        (sortByKey keyRank ((rows.map keyOf).dedup)) :=
      (sortByKey_perm keyRank _).nodup_iff.mpr (List.nodup_dedup _)
    refine List.Pairwise.imp ?_ (hle.and hnd)
    intro k1 k2 hk x hx y hy
    refine ⟨by rw [hkeyed k1 x hx, hkeyed k2 y hy]; exact hk.1, fun heq => ?_⟩
    have hkk : k1 = k2 := by rw [← hkeyed k1 x hx, ← hkeyed k2 y hy]; exact heq
    exact absurd hkk hk.2

/-- The final ORDER BY key of the OZ query: oz_sku ASC, then match_score
DESC, then wb_sku ASC. -/
def ozFinalKey (r : MatchRow) : Lex (Nat × Lex (Int × Nat)) :=
  toLex (r.input_key, ozRankKey r)

/-- The final ORDER BY key of the WB query: wb_sku ASC, then match_score
DESC, then oz_sku ASC. -/
def wbFinalKey (r : MatchRow) : Lex (Nat × Lex (Int × Nat)) :=
  toLex (r.input_key, wbRankKey r)

/-- C2: every key-based match query ranks and truncates per input key.  For
each of the four resolvers, with a positive per-input limit L the query
returns at most L rows per distinct input key, and exactly the first L rows
of that key's partition under the partition ORDER BY (match_score DESC, the
opposite-side key ASC for the sku queries; match_score DESC, oz_sku ASC,
wb_sku ASC for the barcode and external-code queries), the partition being a
permutation of all joined rows of that key; with no limit, or a non-positive
one, the whole partition is returned; and the final output is ordered by
input key first and by the partition ORDER BY inside a key.  The external
query's rows are stated through its non-error result. -/
theorem C2_rank_limit :
    (∀ db inputs (L : Int) (k : Nat), 0 < L →
      ((matchesForOzSkus db inputs (some L)).filter
          (fun r => decide (r.input_key = k))).length ≤ L.toNat
      ∧ (matchesForOzSkus db inputs (some L)).filter (fun r => decide (r.input_key = k))
          = (sortPartition (fun r => r.input_key) ozRankKey (ozJoined db inputs) k).take
              L.toNat) ∧
    (∀ db inputs (k : Nat),
      (matchesForOzSkus db inputs none).filter (fun r => decide (r.input_key = k))
        = sortPartition (fun r => r.input_key) ozRankKey (ozJoined db inputs) k) ∧
    (∀ db inputs (L : Int) (k : Nat), L ≤ 0 →
      (matchesForOzSkus db inputs (some L)).filter (fun r => decide (r.input_key = k))
        = sortPartition (fun r => r.input_key) ozRankKey (ozJoined db inputs) k) ∧
    (∀ db inputs (k : Nat),
      (sortPartition (fun r => r.input_key) ozRankKey (ozJoined db inputs) k).Perm
        ((ozJoined db inputs).filter (fun r => decide (r.input_key = k)))
      ∧ List.Pairwise (fun a b => ozRankKey a ≤ ozRankKey b)
          (sortPartition (fun r => r.input_key) ozRankKey (ozJoined db inputs) k)) ∧
    (∀ db inputs limit,
      List.Pairwise (fun a b => ozFinalKey a ≤ ozFinalKey b)
        (matchesForOzSkus db inputs limit)) ∧
    (∀ db inputs (L : Int) (k : Nat), 0 < L →
      ((matchesForWbSkus db inputs (some L)).filter
          (fun r => decide (r.input_key = k))).length ≤ L.toNat
      ∧ (matchesForWbSkus db inputs (some L)).filter (fun r => decide (r.input_key = k))
          = (sortPartition (fun r => r.input_key) wbRankKey (wbJoined db inputs) k).take
              L.toNat) ∧
    (∀ db inputs (k : Nat),
      (matchesForWbSkus db inputs none).filter (fun r => decide (r.input_key = k))
        = sortPartition (fun r => r.input_key) wbRankKey (wbJoined db inputs) k) ∧
    (∀ db inputs (L : Int) (k : Nat), L ≤ 0 →
      (matchesForWbSkus db inputs (some L)).filter (fun r => decide (r.input_key = k))
        = sortPartition (fun r => r.input_key) wbRankKey (wbJoined db inputs) k) ∧
    (∀ db inputs (k : Nat),
      (sortPartition (fun r => r.input_key) wbRankKey (wbJoined db inputs) k).Perm
        ((wbJoined db inputs).filter (fun r => decide (r.input_key = k)))
      ∧ List.Pairwise (fun a b => wbRankKey a ≤ wbRankKey b)
          (sortPartition (fun r => r.input_key) wbRankKey (wbJoined db inputs) k)) ∧
    (∀ db inputs limit,
      List.Pairwise (fun a b => wbFinalKey a ≤ wbFinalKey b)
        (matchesForWbSkus db inputs limit)) ∧
    (∀ db inputs (L : Int) (k : String), 0 < L →
      ((matchesForBarcodes db inputs (some L)).filter
          (fun r => decide (r.input_code = k))).length ≤ L.toNat
      ∧ (matchesForBarcodes db inputs (some L)).filter (fun r => decide (r.input_code = k))
          = (sortPartition (fun r => r.input_code) bcRankKey (bcJoined db inputs) k).take
              L.toNat) ∧
    (∀ db inputs (k : String) limit, (∀ L, limit = some L → L ≤ 0) →
      (matchesForBarcodes db inputs limit).filter (fun r => decide (r.input_code = k))
        = sortPartition (fun r => r.input_code) bcRankKey (bcJoined db inputs) k) ∧
    (∀ db inputs (k : String),
      (sortPartition (fun r => r.input_code) bcRankKey (bcJoined db inputs) k).Perm
        ((bcJoined db inputs).filter (fun r => decide (r.input_code = k)))
      ∧ List.Pairwise (fun a b => bcRankKey a ≤ bcRankKey b)
          (sortPartition (fun r => r.input_code) bcRankKey (bcJoined db inputs) k)) ∧
    (∀ db inputs limit,
      List.Pairwise (fun a b => strRank a.input_code ≤ strRank b.input_code
          ∧ (a.input_code = b.input_code → bcRankKey a ≤ bcRankKey b))
        (matchesForBarcodes db inputs limit)) ∧
    (∀ db codes limit out, matchesForExternalCodes db codes limit = Except.ok out →
      (∀ (L : Int) (k : String), limit = some L → 0 < L →
        (out.filter (fun r => decide (r.input_code = k))).length ≤ L.toNat
        ∧ out.filter (fun r => decide (r.input_code = k))
            = (sortPartition (fun r => r.input_code) bcRankKey (extJoined db codes) k).take
                L.toNat) ∧
      (∀ k : String, (∀ L, limit = some L → L ≤ 0) →
        out.filter (fun r => decide (r.input_code = k))
          = sortPartition (fun r => r.input_code) bcRankKey (extJoined db codes) k) ∧
      (∀ k : String,
        (sortPartition (fun r => r.input_code) bcRankKey (extJoined db codes) k).Perm
          ((extJoined db codes).filter (fun r => decide (r.input_code = k)))
        ∧ List.Pairwise (fun a b => bcRankKey a ≤ bcRankKey b)
            (sortPartition (fun r => r.input_code) bcRankKey (extJoined db codes) k)) ∧
      List.Pairwise (fun a b => strRank a.input_code ≤ strRank b.input_code
          ∧ (a.input_code = b.input_code → bcRankKey a ≤ bcRankKey b)) out) := by
  refine ⟨?_, ?_, ?_, ?_, ?_, ?_, ?_, ?_, ?_, ?_, ?_, ?_, ?_, ?_, ?_⟩
  · intro db inputs L k hL
    have hkey := rankedOutput_filter_key (fun r : MatchRow => r.input_key) id ozRankKey
      (some L) (ozJoined db inputs) k
    rw [matchesForOzSkus, hkey, keepLimit_pos_eq_take _ L hL]
    refine ⟨?_, rfl⟩
    rw [List.length_take]
    exact min_le_left _ _
  · intro db inputs k
    have hkey := rankedOutput_filter_key (fun r : MatchRow => r.input_key) id ozRankKey
      none (ozJoined db inputs) k
    rw [matchesForOzSkus, hkey, keepLimit_none]
  · intro db inputs L k hL
    have hkey := rankedOutput_filter_key (fun r : MatchRow => r.input_key) id ozRankKey
      (some L) (ozJoined db inputs) k
    rw [matchesForOzSkus, hkey, keepLimit_nonpos _ L hL]
  · intro db inputs k
    exact ⟨sortByKey_perm _ _, sortByKey_pairwise _ _⟩
  · intro db inputs limit
    exact rankedOutput_pairwise_nat (fun r => r.input_key) ozRankKey limit (ozJoined db inputs)
  · intro db inputs L k hL
    have hkey := rankedOutput_filter_key (fun r : MatchRow => r.input_key) id wbRankKey
      (some L) (wbJoined db inputs) k
    rw [matchesForWbSkus, hkey, keepLimit_pos_eq_take _ L hL]
    refine ⟨?_, rfl⟩
    rw [List.length_take]
    exact min_le_left _ _
  · intro db inputs k
    have hkey := rankedOutput_filter_key (fun r : MatchRow => r.input_key) id wbRankKey
      none (wbJoined db inputs) k
    rw [matchesForWbSkus, hkey, keepLimit_none]
  · intro db inputs L k hL
    have hkey := rankedOutput_filter_key (fun r : MatchRow => r.input_key) id wbRankKey
      (some L) (wbJoined db inputs) k
    rw [matchesForWbSkus, hkey, keepLimit_nonpos _ L hL]
  · intro db inputs k
    exact ⟨sortByKey_perm _ _, sortByKey_pairwise _ _⟩
  · intro db inputs limit
    exact rankedOutput_pairwise_nat (fun r => r.input_key) wbRankKey limit (wbJoined db inputs)
  · intro db inputs L k hL
    have hkey := rankedOutput_filter_key (fun r : BcRow => r.input_code) strRank bcRankKey
      (some L) (bcJoined db inputs) k
    rw [matchesForBarcodes, hkey, keepLimit_pos_eq_take _ L hL]
    refine ⟨?_, rfl⟩
    rw [List.length_take]
    exact min_le_left _ _
  · intro db inputs k limit hnp
    cases limit with
    | none =>
      have hkey := rankedOutput_filter_key (fun r : BcRow => r.input_code) strRank bcRankKey
        none (bcJoined db inputs) k
      rw [matchesForBarcodes, hkey, keepLimit_none]
    | some L =>
      have hkey := rankedOutput_filter_key (fun r : BcRow => r.input_code) strRank bcRankKey
        (some L) (bcJoined db inputs) k
      rw [matchesForBarcodes, hkey, keepLimit_nonpos _ L (hnp L rfl)]
  · intro db inputs k
    exact ⟨sortByKey_perm _ _, sortByKey_pairwise _ _⟩
  · intro db inputs limit
    exact rankedOutput_pairwise_gen (fun r => r.input_code) strRank bcRankKey limit
      (bcJoined db inputs)
  · intro db codes limit out hout
    rw [matchesForExternalCodes] at hout
    by_cases hc : codes.isEmpty
    · rw [if_pos hc] at hout
      cases hout
      have hcn : codes = [] := by simpa using hc
      subst hcn
      refine ⟨?_, ?_, ?_, List.Pairwise.nil⟩
      · intro L k hL hLpos
        refine ⟨Nat.zero_le _, ?_⟩
        show ([] : List BcRow) = ([] : List BcRow).take L.toNat
        rw [List.take_nil]
      · intro k hnp
        rfl
      · intro k
        exact ⟨sortByKey_perm _ _, sortByKey_pairwise _ _⟩
    · rw [if_neg hc] at hout
      by_cases ht : db.punta_tables_exist
      · rw [if_neg (by simp [ht])] at hout
        cases hout
        refine ⟨?_, ?_, ?_, ?_⟩
        · intro L k hL hLpos
          subst hL
          have hkey := rankedOutput_filter_key (fun r : BcRow => r.input_code) strRank bcRankKey
            (some L) (extJoined db codes) k
          rw [hkey, keepLimit_pos_eq_take _ L hLpos]
          refine ⟨?_, rfl⟩
          rw [List.length_take]
          exact min_le_left _ _
        · intro k hnp
          cases limit with
          | none =>
            have hkey := rankedOutput_filter_key (fun r : BcRow => r.input_code) strRank
              bcRankKey none (extJoined db codes) k
            rw [hkey, keepLimit_none]
          | some L =>
            have hkey := rankedOutput_filter_key (fun r : BcRow => r.input_code) strRank
              bcRankKey (some L) (extJoined db codes) k
            rw [hkey, keepLimit_nonpos _ L (hnp L rfl)]
        · intro k
          exact ⟨sortByKey_perm _ _, sortByKey_pairwise _ _⟩
        · exact rankedOutput_pairwise_gen (fun r => r.input_code) strRank bcRankKey limit
            (extJoined db codes)
      · rw [if_pos (by simp [ht])] at hout
        cases hout

theorem C2_rank_limit_witness :
    ((matchesForOzSkus dbC1w [1] (some 1)).filter
        (fun r => decide (r.input_key = 1))).length ≤ (1 : Int).toNat :=
  (C2_rank_limit.1 dbC1w [1] 1 1 (by decide)).1

/-! ## Merge-code generation (matching_helpers.generate_merge_code, claim C7) -/

/-- One uppercase hexadecimal digit. -/
def hexDigit (n : Nat) : Char :=
  if n < 10 then Char.ofNat (48 + n) else Char.ofNat (55 + n)

/-- Digits of n in base 16, most significant first; the first argument is
recursion fuel (n itself always suffices since n shrinks by division). -/
def toHexCore : Nat → Nat → List Char
  | 0, _ => []
  | fuel + 1, n => if n = 0 then [] else toHexCore fuel (n / 16) ++ [hexDigit (n % 16)]

/-- Model of format(n, "X"): uppercase hexadecimal, no prefix. -/
def toHexUpper (n : Nat) : String :=
  if n = 0 then "0" else ⟨toHexCore n n⟩

/-- Take the first n characters (model of Python slicing s[:n]). -/
def strTake (s : String) (n : Nat) : String := ⟨s.data.take n⟩

/-- Uppercase every character (model of str.upper on hex digests). -/
def strUpper (s : String) : String := ⟨s.data.map Char.toUpper⟩

/-- Model of generate_merge_code.  The md5hex argument models the external
hashlib.md5(...).hexdigest() call; int(s) is modelled by parseNat (decimal
digits, the UBIGINT sku format).  Returns (merge_code, wb_hex,
fallback_used). -/
def generateMergeCode (md5hex : String → String) (wb_sku : Option String) :
    Except String (String × String × Bool) :=
  match wb_sku with
  | none => .error "wb_sku is required"
  | some s0 =>
    if trimStr s0 = "" then .error "wb_sku is empty"
    else
      match parseNat (trimStr s0) with
      | some n => .ok ("B-" ++ toHexUpper n, toHexUpper n, false)
      | none =>
        .ok ("B-" ++ strUpper (strTake (md5hex (trimStr s0)) 12),
          strUpper (strTake (md5hex (trimStr s0)) 12), true)

/-- C7 helper: unfolding of the non-empty branch of generateMergeCode. -/
theorem generateMergeCode_some (md5hex : String → String) (s : String) :
    generateMergeCode md5hex (some s)
      = (if trimStr s = "" then .error "wb_sku is empty"
         else
           match parseNat (trimStr s) with
           | some n => .ok ("B-" ++ toHexUpper n, toHexUpper n, false)
           | none =>
             .ok ("B-" ++ strUpper (strTake (md5hex (trimStr s)) 12),
               strUpper (strTake (md5hex (trimStr s)) 12), true)) := rfl

/-- Minimum of a key list (Python min over a nonempty set). -/
def listMin : List Nat → Nat
  | [] => 0
  | x :: xs => xs.foldl Nat.min x

/-- The merge code the similarity pipeline assigns to one component:
"C-" ++ format(min_wb, "X") (similarity_matching.py lines 303-305). -/
def compMergeCode (comp : List Nat) : String := "C-" ++ toHexUpper (listMin comp)

/-- The mapping dict of search_similar_matches: a key found in some component
is mapped to that component's (merge_code, group_hex). -/
def mappingLookup (comps : List (List Nat)) (wb : Nat) : Option (String × String) :=
  (comps.find? (fun comp => decide (wb ∈ comp))).map
    (fun comp => (compMergeCode comp, toHexUpper (listMin comp)))

/-- The merge_code_to_group dict: components numbered 1.. in list order. -/
def mergeCodeToGroup (comps : List (List Nat)) : List (String × Nat) :=
  comps.enum.map (fun p => (compMergeCode p.2, p.1 + 1))

/-- C7 (amended): generate_merge_code prefixes the uppercase hexadecimal of a
numeric key with "B-" (not "C-"); for a non-numeric key it falls back to the
first 12 uppercased hex characters of the MD5 digest of the trimmed string,
again under "B-", and flags the fallback in its returned tuple.  The "C-"
prefix belongs to the similarity pipeline, whose mapping assigns each member
of a component the code "C-" followed by the uppercase hexadecimal of the
component's minimum key, with no fallback path. -/
theorem C7_merge_code :
    (∀ (md5hex : String → String) (s : String) (n : Nat),
      parseNat (trimStr s) = some n →
      generateMergeCode md5hex (some s)
        = .ok ("B-" ++ toHexUpper n, toHexUpper n, false)) ∧
    (∀ (md5hex : String → String) (s : String),
      trimStr s ≠ "" → parseNat (trimStr s) = none →
      generateMergeCode md5hex (some s)
        = .ok ("B-" ++ strUpper (strTake (md5hex (trimStr s)) 12),
            strUpper (strTake (md5hex (trimStr s)) 12), true)) ∧
    (∀ (comps : List (List Nat)) (wb : Nat) (c h : String),
      mappingLookup comps wb = some (c, h) →
      ∃ comp ∈ comps, wb ∈ comp ∧ c = "C-" ++ toHexUpper (listMin comp)
        ∧ h = toHexUpper (listMin comp)) := by
  refine ⟨?_, ?_, ?_⟩
  · intro md5hex s n hn
    have ht : trimStr s ≠ "" := by
      intro he
      rw [he] at hn
      simp [parseNat] at hn
    rw [generateMergeCode_some, if_neg ht, hn]
  · intro md5hex s ht hn
    rw [generateMergeCode_some, if_neg ht, hn]
  · intro comps wb c h hm
    rw [mappingLookup] at hm
    rw [Option.map_eq_some'] at hm
    obtain ⟨comp, hfind, he⟩ := hm
    have hc : compMergeCode comp = c := congrArg Prod.fst he
    have hh : toHexUpper (listMin comp) = h := congrArg Prod.snd he
    refine ⟨comp, List.mem_of_find?_eq_some hfind, ?_, ?_, ?_⟩
    · simpa using List.find?_some hfind
    · rw [← hc]; rfl
    · rw [← hh]

/-- C7 is false as stated: the standalone generator prefixes with "B-", so
the numeric key 10 yields merge code "B-A", not the "C-"-prefixed code the
claim requires. -/
theorem C7_counterexample :
    generateMergeCode (fun _ => "") (some "10") = .ok ("B-A", "A", false)
    ∧ ("B-A" : String) ≠ "C-A" := by
  exact ⟨rfl, by decide⟩

theorem C7_merge_code_witness :
    generateMergeCode (fun _ => "d41d8cd98f00") (some "10")
      = .ok ("B-" ++ toHexUpper 10, toHexUpper 10, false) :=
  C7_merge_code.1 (fun _ => "d41d8cd98f00") "10" 10 (by decide)

/-! ## Duplicate-size marking (matching_helpers.mark_duplicate_sizes, claim C6) -/

/-- A row of the result frame fed to mark_duplicate_sizes. -/
structure DRow where
  group_number : Nat
  wb_sku : Nat
  oz_manufacturer_size : Option String
  merge_code : String
  match_score : Int
deriving DecidableEq, Repr

/-- pd.notna(size) and str(size).strip() truthiness. -/
def knownSize : Option String → Bool
  | none => false
  | some s => decide (trimStr s ≠ "")

/-- Numeric sort key standing in for the pandas string order on sizes (the
stated properties only require a total order that refines size equality). -/
def sizeRank : Option String → Nat
  | none => 0
  | some s => strRank s + 1

/-- The sort_values key: grouping column ASC, size ASC, match_score DESC. -/
def dKey (groupCol : DRow → Nat) (r : DRow) : Lex (Nat × Lex (Nat × Int)) :=
  toLex (groupCol r, toLex (sizeRank r.oz_manufacturer_size, -r.match_score))

/-- The same-bucket mask of the Python loop:
(df[group_col] == row[group_col]) & (df[size] == row[size]). -/
def sameBucket (groupCol : DRow → Nat) (r x : DRow) : Bool :=
  groupCol x == groupCol r && x.oz_manufacturer_size == r.oz_manufacturer_size

/-- Model of str.startswith. -/
def strStartsWith (s pre : String) : Bool := pre.data.isPrefixOf s.data

/-- Split after the first dash: afterDash of "A-B-C" is "B-C", none when the
string has no dash (Python split("-", 1)). -/
def splitDashAux : List Char → Option (List Char × List Char)
  | [] => none
  | c :: cs =>
    if c = '-' then some ([], cs)
    else (splitDashAux cs).map (fun p => (c :: p.1, p.2))

def afterDash (s : String) : Option String :=
  (splitDashAux s.data).map (fun p => ⟨p.2⟩)

/-- Code kept by the best row of a bucket: the original when it already
carries the primary tag, otherwise the primary tag replaces the first
segment (or the code is left alone when it has no dash). -/
def primaryCode (pp c : String) : String :=
  if strStartsWith c (pp ++ "-") then c
  else
    match afterDash c with
    | some rest => pp ++ "-" ++ rest
    | none => c

/-- Code of a duplicate row: duplicate tag, the code after its first dash,
and a _position suffix when the bucket holds more than two rows. -/
def dupCode (dp : String) (total position : Nat) (c : String) : String :=
  let base := match afterDash c with | some rest => rest | none => c
  if 2 < total then dp ++ "-" ++ base ++ "_" ++ Nat.repr position
  else dp ++ "-" ++ base

/-- The merge code assigned to a bucket row at the given 1-based position. -/
def markedCode (pp dp : String) (total position : Nat) (c : String) : String :=
  if position = 1 then primaryCode pp c else dupCode dp total position c

/-- Mark one row of the sorted frame; seen holds the rows already processed
(so the position of the row within its bucket is one more than the number of
earlier same-bucket rows), and next is the running fresh group number. -/
def markOne (pp dp : String) (groupCol : DRow → Nat) (sorted seen : List DRow)
    (next : Nat) (r : DRow) : DRow :=
  if knownSize r.oz_manufacturer_size then
    let total := (sorted.filter (sameBucket groupCol r)).length
    let position := (seen.filter (sameBucket groupCol r)).length + 1
    if position = 1 then { r with merge_code := markedCode pp dp total position r.merge_code }
    else { r with
      merge_code := markedCode pp dp total position r.merge_code
      group_number := next }
  else r

/-- Does processing this row consume a fresh group number? -/
def isDupRow (groupCol : DRow → Nat) (seen : List DRow) (r : DRow) : Bool :=
  knownSize r.oz_manufacturer_size
    && decide (0 < (seen.filter (sameBucket groupCol r)).length)

/-- The marking loop of mark_duplicate_sizes over the sorted frame. -/
def markGo (pp dp : String) (groupCol : DRow → Nat) (sorted : List DRow) :
    List DRow → List DRow → Nat → List DRow
  | _, [], _ => []
  | seen, r :: rest, next =>
    markOne pp dp groupCol sorted seen next r ::
      markGo pp dp groupCol sorted (seen ++ [r]) rest
        (next + (if isDupRow groupCol seen r then 1 else 0))

/-- df.get("group_number").max(): the largest group number in the frame. -/
def maxGroupNumber (df : List DRow) : Nat :=
  df.foldl (fun acc r => Nat.max acc r.group_number) 0

/-- Model of mark_duplicate_sizes: sort by (grouping column, size,
match_score DESC), then mark each row against the rows before it, assigning
duplicates fresh group numbers starting at max + 1.  groupCol selects the
grouping column (group_number by default, the wb_sku column when the caller
passes grouping_column). -/
def markDuplicateSizes (pp dp : String) (groupCol : DRow → Nat) (df : List DRow) :
    List DRow :=
  markGo pp dp groupCol (sortByKey (dKey groupCol) df) [] (sortByKey (dKey groupCol) df)
    (maxGroupNumber df + 1)

theorem markGo_length (pp dp : String) (groupCol : DRow → Nat) (sorted : List DRow) :
    ∀ (rest seen : List DRow) (next : Nat),
      (markGo pp dp groupCol sorted seen rest next).length = rest.length := by
  intro rest
  induction rest with
  | nil => intro seen next; rfl
  | cons r t ih =>
    intro seen next
    rw [markGo]
    simp only [List.length_cons, ih]

theorem sameBucket_fields {groupCol : DRow → Nat} {r0 r : DRow}
    (h : sameBucket groupCol r0 r = true) :
    groupCol r = groupCol r0 ∧ r.oz_manufacturer_size = r0.oz_manufacturer_size := by
  rw [sameBucket, Bool.and_eq_true] at h
  exact ⟨beq_iff_eq.mp h.1, beq_iff_eq.mp h.2⟩

theorem sameBucket_trans_eq {groupCol : DRow → Nat} {r0 r : DRow}
    (h : sameBucket groupCol r0 r = true) (x : DRow) :
    sameBucket groupCol r x = sameBucket groupCol r0 x := by
  obtain ⟨h1, h2⟩ := sameBucket_fields h
  rw [sameBucket, sameBucket, h1, h2]

theorem knownSize_of_sameBucket {groupCol : DRow → Nat} {r0 r : DRow}
    (h : sameBucket groupCol r0 r = true)
    (hk : knownSize r0.oz_manufacturer_size = true) :
    knownSize r.oz_manufacturer_size = true := by
  rw [(sameBucket_fields h).2]
  exact hk

/-- The codes assigned along one bucket, starting after pos earlier rows. -/
def expectedCodes (pp dp : String) (total : Nat) : Nat → List String → List String
  | _, [] => []
  | pos, c :: cs => markedCode pp dp total (pos + 1) c :: expectedCodes pp dp total (pos + 1) cs

theorem expectedCodes_length (pp dp : String) (total : Nat) :
    ∀ (cs : List String) (pos : Nat), (expectedCodes pp dp total pos cs).length = cs.length := by
  intro cs
  induction cs with
  | nil => intro pos; rfl
  | cons c cs ih =>
    intro pos
    rw [expectedCodes]
    simp only [List.length_cons, ih]

theorem expectedCodes_get (pp dp : String) (total : Nat) :
    ∀ (cs : List String) (pos j : Nat) (hj : j < cs.length)
      (hj2 : j < (expectedCodes pp dp total pos cs).length),
      (expectedCodes pp dp total pos cs).get ⟨j, hj2⟩
        = markedCode pp dp total (pos + j + 1) (cs.get ⟨j, hj⟩) := by
  intro cs
  induction cs with
  | nil => intro pos j hj; cases hj
  | cons c cs ih =>
    intro pos j hj hj2
    cases j with
    | zero => rfl
    | succ m =>
      have hunfold : expectedCodes pp dp total pos (c :: cs)
          = markedCode pp dp total (pos + 1) c :: expectedCodes pp dp total (pos + 1) cs := rfl
      have hm : m < cs.length := by simpa using hj
      have hm2 : m < (expectedCodes pp dp total (pos + 1) cs).length := by
        rw [expectedCodes_length]; exact hm
      rw [List.get_of_eq hunfold, List.get_cons_succ]
      rw [ih (pos + 1) m hm]
      congr 1
      omega

theorem strStartsWith_append (p r : String) : strStartsWith (p ++ r) p = true := by
  rw [strStartsWith, String.data_append]
  have : p.data <+: p.data ++ r.data := ⟨r.data, rfl⟩
  exact List.isPrefixOf_iff_prefix.mpr this

theorem startsWith_C_not_D {s : String} (hc : strStartsWith s "C-" = true) :
    strStartsWith s "D-" = false := by
  rw [strStartsWith] at hc ⊢
  obtain ⟨w, hw⟩ := List.isPrefixOf_iff_prefix.mp hc
  rw [Bool.eq_false_iff]
  intro hd
  obtain ⟨w2, hw2⟩ := List.isPrefixOf_iff_prefix.mp hd
  rw [← hw2] at hw
  have hC : ("C-" : String).data = ['C', '-'] := rfl
  have hD : ("D-" : String).data = ['D', '-'] := rfl
  rw [hC, hD] at hw
  simp at hw

theorem dupCode_startsWith (dp : String) (total position : Nat) (c : String) :
    strStartsWith (dupCode dp total position c) (dp ++ "-") = true := by
  rw [dupCode]
  by_cases h2 : 2 < total
  · rw [if_pos h2]
    have : dp ++ "-" ++ (match afterDash c with | some rest => rest | none => c)
        ++ "_" ++ Nat.repr position
        = (dp ++ "-") ++ ((match afterDash c with | some rest => rest | none => c)
            ++ "_" ++ Nat.repr position) := by
      simp [String.append_assoc]
    rw [this]
    exact strStartsWith_append _ _
  · rw [if_neg h2]
    have : dp ++ "-" ++ (match afterDash c with | some rest => rest | none => c)
        = (dp ++ "-") ++ (match afterDash c with | some rest => rest | none => c) := by
      simp [String.append_assoc]
    rw [this]
    exact strStartsWith_append _ _

theorem foldl_max_acc_le (l : List DRow) :
    ∀ acc : Nat, acc ≤ l.foldl (fun a r => Nat.max a r.group_number) acc := by
  induction l with
  | nil => intro acc; exact le_refl acc
  | cons r t ih =>
    intro acc
    exact le_trans (Nat.le_max_left acc r.group_number) (ih _)

theorem mem_le_foldl_max (r : DRow) :
    ∀ (l : List DRow) (acc : Nat), r ∈ l →
      r.group_number ≤ l.foldl (fun a x => Nat.max a x.group_number) acc := by
  intro l
  induction l with
  | nil => intro acc h; cases h
  | cons x t ih =>
    intro acc h
    rcases List.mem_cons.mp h with he | hm
    · subst he
      exact le_trans (Nat.le_max_right acc r.group_number) (foldl_max_acc_le t _)
    · exact ih _ hm

theorem mem_le_maxGroupNumber {df : List DRow} {r : DRow} (h : r ∈ df) :
    r.group_number ≤ maxGroupNumber df :=
  mem_le_foldl_max r df 0 h

theorem markOne_code_of_bucket {pp dp : String} {groupCol : DRow → Nat}
    {sorted seen : List DRow} {next : Nat} {r0 r : DRow}
    (hb : sameBucket groupCol r0 r = true)
    (hk : knownSize r0.oz_manufacturer_size = true) :
    (markOne pp dp groupCol sorted seen next r).merge_code
      = markedCode pp dp ((sorted.filter (sameBucket groupCol r0)).length)
          ((seen.filter (sameBucket groupCol r0)).length + 1) r.merge_code := by
  rw [markOne, if_pos (knownSize_of_sameBucket hb hk)]
  rw [List.filter_congr (fun x _ => sameBucket_trans_eq hb x),
    List.filter_congr (fun x _ => sameBucket_trans_eq hb x)]
  by_cases hpos : (seen.filter (sameBucket groupCol r0)).length + 1 = 1
  · rw [if_pos hpos]
  · rw [if_neg hpos]

/-- Along one bucket of a known size, the marking loop assigns exactly the
codes of expectedCodes, positions continuing after the already-seen bucket
rows. -/
theorem markGo_zip_bucket (pp dp : String) (groupCol : DRow → Nat) (sorted : List DRow)
    (r0 : DRow) (hk : knownSize r0.oz_manufacturer_size = true) :
    ∀ (rest seen : List DRow) (next : Nat),
      ((rest.zip (markGo pp dp groupCol sorted seen rest next)).filter
          (fun p => sameBucket groupCol r0 p.1)).map (fun p => p.2.merge_code)
        = expectedCodes pp dp ((sorted.filter (sameBucket groupCol r0)).length)
            ((seen.filter (sameBucket groupCol r0)).length)
            ((rest.filter (sameBucket groupCol r0)).map (fun r => r.merge_code)) := by
  intro rest
  induction rest with
  | nil => intro seen next; rfl
  | cons r t ih =>
    intro seen next
    rw [markGo, List.zip_cons_cons, List.filter_cons, List.filter_cons]
    have hseen : ((seen ++ [r]).filter (sameBucket groupCol r0)).length
        = ((seen.filter (sameBucket groupCol r0)).length)
          + (if sameBucket groupCol r0 r = true then 1 else 0) := by
      rw [List.filter_append, List.length_append]
      by_cases hb : sameBucket groupCol r0 r = true
      · rw [if_pos hb]
        simp [hb]
      · rw [if_neg hb]
        simp [Bool.eq_false_iff.mpr (fun hc => hb hc)]
    by_cases hb : sameBucket groupCol r0 r = true
    · rw [if_pos (by simpa using hb), if_pos hb]
      rw [List.map_cons, List.map_cons]
      have hunfold : expectedCodes pp dp ((sorted.filter (sameBucket groupCol r0)).length)
          ((seen.filter (sameBucket groupCol r0)).length)
          (r.merge_code :: (t.filter (sameBucket groupCol r0)).map (fun r => r.merge_code))
          = markedCode pp dp ((sorted.filter (sameBucket groupCol r0)).length)
              ((seen.filter (sameBucket groupCol r0)).length + 1) r.merge_code
            :: expectedCodes pp dp ((sorted.filter (sameBucket groupCol r0)).length)
                ((seen.filter (sameBucket groupCol r0)).length + 1)
                ((t.filter (sameBucket groupCol r0)).map (fun r => r.merge_code)) := rfl
      rw [hunfold]
      congr 1
      · exact markOne_code_of_bucket hb hk
      · rw [ih (seen ++ [r])]
        rw [hseen, if_pos hb]
    · rw [if_neg (by simpa using hb), if_neg hb]
      rw [ih (seen ++ [r])]
      rw [hseen, if_neg hb]
      simp

/-- Every marked row either keeps its original group number (its code kept or
primary-tagged) or is a duplicate: its group number is at least the running
counter and its code has the duplicate shape. -/
theorem markGo_pairs (pp dp : String) (groupCol : DRow → Nat) (sorted : List DRow) :
    ∀ (rest seen : List DRow) (next : Nat) (p : DRow × DRow),
      p ∈ rest.zip (markGo pp dp groupCol sorted seen rest next) →
      (p.2.group_number = p.1.group_number
        ∧ (p.2.merge_code = p.1.merge_code
            ∨ p.2.merge_code = primaryCode pp p.1.merge_code))
      ∨ (next ≤ p.2.group_number
        ∧ ∃ total position, 2 ≤ position
            ∧ p.2.merge_code = dupCode dp total position p.1.merge_code) := by
  intro rest
  induction rest with
  | nil => intro seen next p hp; cases hp
  | cons r t ih =>
    intro seen next p hp
    rw [markGo, List.zip_cons_cons, List.mem_cons] at hp
    rcases hp with he | hp
    · subst he
      by_cases hkn : knownSize r.oz_manufacturer_size = true
      · by_cases hpos : (seen.filter (sameBucket groupCol r)).length + 1 = 1
        · left
          constructor
          · show (markOne pp dp groupCol sorted seen next r).group_number = r.group_number
            rw [markOne, if_pos hkn, if_pos hpos]
          · right
            show (markOne pp dp groupCol sorted seen next r).merge_code
              = primaryCode pp r.merge_code
            rw [markOne, if_pos hkn, if_pos hpos]
            show markedCode pp dp _ _ r.merge_code = _
            rw [markedCode, if_pos hpos]
        · right
          constructor
          · show next ≤ (markOne pp dp groupCol sorted seen next r).group_number
            rw [markOne, if_pos hkn, if_neg hpos]
          · refine ⟨(sorted.filter (sameBucket groupCol r)).length,
              (seen.filter (sameBucket groupCol r)).length + 1, by omega, ?_⟩
            show (markOne pp dp groupCol sorted seen next r).merge_code = _
            rw [markOne, if_pos hkn, if_neg hpos]
            show markedCode pp dp _ _ r.merge_code = _
            rw [markedCode, if_neg hpos]
      · left
        constructor
        · show (markOne pp dp groupCol sorted seen next r).group_number = r.group_number
          rw [markOne, if_neg hkn]
        · left
          show (markOne pp dp groupCol sorted seen next r).merge_code = r.merge_code
          rw [markOne, if_neg hkn]
    · rcases ih (seen ++ [r]) (next + (if isDupRow groupCol seen r = true then 1 else 0)) p hp
        with hleft | hright
      · exact Or.inl hleft
      · refine Or.inr ⟨le_trans (Nat.le_add_right next _) hright.1, hright.2⟩

/-- Fresh group numbers are assigned in strictly increasing order: among the
marked rows, any two whose group numbers reach the running counter are
distinct (the counter never reuses a value). -/
theorem markGo_fresh (pp dp : String) (groupCol : DRow → Nat) (sorted : List DRow) :
    ∀ (rest seen : List DRow) (next : Nat),
      (∀ r ∈ rest, r.group_number < next) →
      List.Pairwise (fun p q : DRow × DRow =>
          next ≤ p.2.group_number → next ≤ q.2.group_number →
            p.2.group_number < q.2.group_number)
        (rest.zip (markGo pp dp groupCol sorted seen rest next)) := by
  intro rest
  induction rest with
  | nil =>
    intro seen next _
    rw [markGo]
    exact List.Pairwise.nil
  | cons r t ih =>
    intro seen next horig
    rw [markGo, List.zip_cons_cons, List.pairwise_cons]
    have horigt : ∀ x ∈ t, x.group_number
        < next + (if isDupRow groupCol seen r = true then 1 else 0) :=
      fun x hx => lt_of_lt_of_le (horig x (List.mem_cons_of_mem _ hx)) (Nat.le_add_right _ _)
    constructor
    · intro q hq hle1 hle2
      by_cases hd : isDupRow groupCol seen r = true
      · have hnum : (markOne pp dp groupCol sorted seen next r).group_number = next := by
          rw [isDupRow, Bool.and_eq_true] at hd
          have hpos : ¬ ((seen.filter (sameBucket groupCol r)).length + 1 = 1) := by
            have := decide_eq_true_eq.mp hd.2
            omega
          rw [markOne, if_pos hd.1, if_neg hpos]
        rw [hnum]
        rw [if_pos hd] at hq
        rcases markGo_pairs pp dp groupCol sorted t (seen ++ [r]) (next + 1) q hq
          with hcase | hcase
        · exfalso
          have hq1 : q.1 ∈ t := (List.of_mem_zip hq).1
          have := horig q.1 (List.mem_cons_of_mem _ hq1)
          omega
        · omega
      · exfalso
        have hnum : (markOne pp dp groupCol sorted seen next r).group_number
            = r.group_number := by
          by_cases hkn : knownSize r.oz_manufacturer_size = true
          · have hcnt : (seen.filter (sameBucket groupCol r)).length = 0 := by
              rw [isDupRow, Bool.and_eq_true] at hd
              by_cases hc : (seen.filter (sameBucket groupCol r)).length = 0
              · exact hc
              · exact absurd ⟨hkn, decide_eq_true (by omega)⟩ hd
            rw [markOne, if_pos hkn, if_pos (by omega)]
          · rw [markOne, if_neg hkn]
        rw [hnum] at hle1
        have := horig r (List.mem_cons_self _ _)
        omega
    · have htail := ih (seen ++ [r]) (next + (if isDupRow groupCol seen r = true then 1 else 0))
        horigt
      refine htail.imp_of_mem ?_
      intro p q hp hq hrel hle1 hle2
      have hnp : next + (if isDupRow groupCol seen r = true then 1 else 0)
          ≤ p.2.group_number := by
        rcases markGo_pairs pp dp groupCol sorted t (seen ++ [r]) _ p hp with hc | hc
        · exfalso
          have hp1 : p.1 ∈ t := (List.of_mem_zip hp).1
          have := horig p.1 (List.mem_cons_of_mem _ hp1)
          omega
        · exact hc.1
      have hnq : next + (if isDupRow groupCol seen r = true then 1 else 0)
          ≤ q.2.group_number := by
        rcases markGo_pairs pp dp groupCol sorted t (seen ++ [r]) _ q hq with hc | hc
        · exfalso
          have hq1 : q.1 ∈ t := (List.of_mem_zip hq).1
          have := horig q.1 (List.mem_cons_of_mem _ hq1)
          omega
        · exact hc.1
      exact hrel hnp hnq

/-- The sorted frame inside mark_duplicate_sizes. -/
def sortedDf (groupCol : DRow → Nat) (df : List DRow) : List DRow :=
  sortByKey (dKey groupCol) df

/-- Each input row of the sorted frame zipped with its marked output row. -/
def zipMarked (groupCol : DRow → Nat) (df : List DRow) : List (DRow × DRow) :=
  (sortedDf groupCol df).zip (markDuplicateSizes "C" "D" groupCol df)

/-- The rows of one size bucket, as (input, output) pairs in sorted order. -/
def bucketPairs (groupCol : DRow → Nat) (df : List DRow) (r0 : DRow) :
    List (DRow × DRow) :=
  (zipMarked groupCol df).filter (fun p => sameBucket groupCol r0 p.1)

theorem filter_fst_map_fst {α β : Type} (pred : α → Bool) :
    ∀ (Z : List (α × β)),
      (Z.filter (fun p => pred p.1)).map Prod.fst = (Z.map Prod.fst).filter pred := by
  intro Z
  induction Z with
  | nil => rfl
  | cons p t ih =>
    rw [List.map_cons, List.filter_cons, List.filter_cons]
    by_cases hp : pred p.1 = true
    · rw [if_pos hp, if_pos hp, List.map_cons, ih]
    · rw [if_neg hp, if_neg hp, ih]

theorem zipMarked_map_fst (groupCol : DRow → Nat) (df : List DRow) :
    (zipMarked groupCol df).map Prod.fst = sortedDf groupCol df := by
  rw [zipMarked]
  apply List.map_fst_zip
  rw [markDuplicateSizes, markGo_length]
  exact Nat.le_of_eq rfl

theorem bucketPairs_map_fst (groupCol : DRow → Nat) (df : List DRow) (r0 : DRow) :
    (bucketPairs groupCol df r0).map Prod.fst
      = (sortedDf groupCol df).filter (sameBucket groupCol r0) := by
  rw [bucketPairs, filter_fst_map_fst, zipMarked_map_fst]

theorem bucketPairs_length (groupCol : DRow → Nat) (df : List DRow) (r0 : DRow) :
    (bucketPairs groupCol df r0).length
      = ((sortedDf groupCol df).filter (sameBucket groupCol r0)).length := by
  rw [← bucketPairs_map_fst, List.length_map]

theorem mem_zipMarked_fst {groupCol : DRow → Nat} {df : List DRow} {p : DRow × DRow}
    (hp : p ∈ zipMarked groupCol df) : p.1 ∈ df := by
  have h1 : p.1 ∈ sortedDf groupCol df := (List.of_mem_zip hp).1
  exact (sortByKey_perm (dKey groupCol) df).subset h1

/-- Within one bucket the sort key order is exactly descending match_score. -/
theorem dKey_le_bucket_score {groupCol : DRow → Nat} {r0 p q : DRow}
    (hp : sameBucket groupCol r0 p = true) (hq : sameBucket groupCol r0 q = true)
    (hle : dKey groupCol p ≤ dKey groupCol q) : q.match_score ≤ p.match_score := by
  obtain ⟨hp1, hp2⟩ := sameBucket_fields hp
  obtain ⟨hq1, hq2⟩ := sameBucket_fields hq
  rw [dKey, dKey, hp1, hq1, hp2, hq2] at hle
  rw [Prod.Lex.le_iff] at hle
  rcases hle with hlt | ⟨_, hinner⟩
  · exact absurd hlt (lt_irrefl _)
  · rw [Prod.Lex.le_iff] at hinner
    rcases hinner with hlt | ⟨_, hsc⟩
    · exact absurd hlt (lt_irrefl _)
    · omega

theorem primaryCode_startsWithC {c : String} (h : afterDash c ≠ none) :
    strStartsWith (primaryCode "C" c) "C-" = true := by
  rw [primaryCode]
  by_cases hs : strStartsWith c ("C" ++ "-") = true
  · rw [if_pos hs]
    exact hs
  · rw [if_neg hs]
    cases hd : afterDash c with
    | none => exact absurd hd h
    | some b =>
      show strStartsWith ("C" ++ "-" ++ b) "C-" = true
      have hassoc : ("C" : String) ++ "-" ++ b = "C-" ++ b := rfl
      rw [hassoc]
      exact strStartsWith_append _ _

theorem startsWith_D_not_C {s : String} (hc : strStartsWith s "D-" = true) :
    strStartsWith s "C-" = false := by
  rw [strStartsWith] at hc ⊢
  obtain ⟨w, hw⟩ := List.isPrefixOf_iff_prefix.mp hc
  rw [Bool.eq_false_iff]
  intro hd
  obtain ⟨w2, hw2⟩ := List.isPrefixOf_iff_prefix.mp hd
  rw [← hw2] at hw
  have hC : ("C-" : String).data = ['C', '-'] := rfl
  have hD : ("D-" : String).data = ['D', '-'] := rfl
  rw [hC, hD] at hw
  simp at hw

theorem get_map_at {α β : Type} (f : α → β) (l : List α) (j : Nat) (hj : j < l.length)
    (hj2 : j < (l.map f).length) : (l.map f).get ⟨j, hj2⟩ = f (l.get ⟨j, hj⟩) := by
  simp [List.get_eq_getElem]

theorem markedCode_one (pp dp : String) (total : Nat) (c : String) :
    markedCode pp dp total 1 c = primaryCode pp c := by
  rw [markedCode, if_pos rfl]

/-- A row of the zipped frame whose output code carries the duplicate tag was
assigned a fresh group number (at least max + 1). -/
theorem dup_coded_fresh {groupCol : DRow → Nat} {df : List DRow} {p : DRow × DRow}
    (hdash : ∀ r ∈ df, afterDash r.merge_code ≠ none)
    (hnotdup : ∀ r ∈ df, strStartsWith r.merge_code "D-" = false)
    (hp : p ∈ zipMarked groupCol df)
    (hD : strStartsWith p.2.merge_code "D-" = true) :
    maxGroupNumber df + 1 ≤ p.2.group_number := by
  have hp1 : p.1 ∈ df := mem_zipMarked_fst hp
  rcases markGo_pairs "C" "D" groupCol (sortedDf groupCol df) (sortedDf groupCol df) []
      (maxGroupNumber df + 1) p hp with ⟨_, hcode⟩ | hfresh
  · exfalso
    rcases hcode with horig | hprim
    · rw [horig] at hD
      rw [hnotdup p.1 hp1] at hD
      cases hD
    · rw [hprim] at hD
      rw [startsWith_C_not_D (primaryCode_startsWithC (hdash p.1 hp1))] at hD
      cases hD
  · exact hfresh.1

/-- A row of the zipped frame whose output code does not carry the duplicate
tag kept its original group number (at most max). -/
theorem nondup_coded_low {groupCol : DRow → Nat} {df : List DRow} {q : DRow × DRow}
    (hq : q ∈ zipMarked groupCol df)
    (hD : strStartsWith q.2.merge_code "D-" = false) :
    q.2.group_number ≤ maxGroupNumber df := by
  have hq1 : q.1 ∈ df := mem_zipMarked_fst hq
  rcases markGo_pairs "C" "D" groupCol (sortedDf groupCol df) (sortedDf groupCol df) []
      (maxGroupNumber df + 1) q hq with ⟨hnum, _⟩ | hfresh
  · rw [hnum]
    exact mem_le_maxGroupNumber hq1
  · exfalso
    obtain ⟨_, ⟨total, position, _, hcode⟩⟩ := hfresh
    rw [hcode] at hD
    have := dupCode_startsWith "D" total position q.1.merge_code
    have hDD : ("D" : String) ++ "-" = "D-" := rfl
    rw [hDD] at this
    rw [this] at hD
    cases hD

/-- C6: after duplicate marking with the default tags, in every same-size
bucket of N at least 2 rows (taken within one grouping value), the first row
of the bucket in sorted order keeps a primary-tagged merge code, keeps its
group number, and has the maximum match_score of the bucket; every other
bucket row gets the duplicate tag D with the suffix _position
(positions 2..N) exactly when N exceeds 2 and no suffix when N equals 2,
and a group number strictly above every original group number; duplicate
rows never collide with each other or with any non-duplicate row on group
number. -/
theorem C6_duplicate_marking (groupCol : DRow → Nat) (df : List DRow) (r0 : DRow)
    (hdash : ∀ r ∈ df, afterDash r.merge_code ≠ none)
    (hnotdup : ∀ r ∈ df, strStartsWith r.merge_code "D-" = false)
    (hksize : knownSize r0.oz_manufacturer_size = true)
    (hB : 2 ≤ (bucketPairs groupCol df r0).length) :
    (∀ j (hj : j < (bucketPairs groupCol df r0).length),
      (j = 0 →
        strStartsWith ((bucketPairs groupCol df r0).get ⟨j, hj⟩).2.merge_code "C-" = true
        ∧ ((bucketPairs groupCol df r0).get ⟨j, hj⟩).2.group_number
            = ((bucketPairs groupCol df r0).get ⟨j, hj⟩).1.group_number
        ∧ ∀ q ∈ bucketPairs groupCol df r0,
            q.1.match_score ≤ ((bucketPairs groupCol df r0).get ⟨j, hj⟩).1.match_score)
      ∧ (0 < j →
        (∃ b, afterDash ((bucketPairs groupCol df r0).get ⟨j, hj⟩).1.merge_code = some b
          ∧ (2 < (bucketPairs groupCol df r0).length →
              ((bucketPairs groupCol df r0).get ⟨j, hj⟩).2.merge_code
                = "D-" ++ b ++ "_" ++ Nat.repr (j + 1))
          ∧ ((bucketPairs groupCol df r0).length = 2 →
              ((bucketPairs groupCol df r0).get ⟨j, hj⟩).2.merge_code = "D-" ++ b))
        ∧ strStartsWith ((bucketPairs groupCol df r0).get ⟨j, hj⟩).2.merge_code "D-" = true
        ∧ strStartsWith ((bucketPairs groupCol df r0).get ⟨j, hj⟩).2.merge_code "C-" = false
        ∧ maxGroupNumber df
            < ((bucketPairs groupCol df r0).get ⟨j, hj⟩).2.group_number))
    ∧ List.Pairwise (fun p q =>
        strStartsWith p.2.merge_code "D-" = true →
        strStartsWith q.2.merge_code "D-" = true →
        p.2.group_number ≠ q.2.group_number) (zipMarked groupCol df)
    ∧ (∀ p ∈ zipMarked groupCol df, ∀ q ∈ zipMarked groupCol df,
        strStartsWith p.2.merge_code "D-" = true →
        strStartsWith q.2.merge_code "D-" = false →
        p.2.group_number ≠ q.2.group_number) := by
  have hcodes : (bucketPairs groupCol df r0).map (fun p => p.2.merge_code)
      = expectedCodes "C" "D"
          (((sortedDf groupCol df).filter (sameBucket groupCol r0)).length) 0
          (((sortedDf groupCol df).filter (sameBucket groupCol r0)).map
            (fun r => r.merge_code)) :=
    markGo_zip_bucket "C" "D" groupCol (sortedDf groupCol df) r0 hksize
      (sortedDf groupCol df) [] (maxGroupNumber df + 1)
  have hBlen : (bucketPairs groupCol df r0).length
      = ((sortedDf groupCol df).filter (sameBucket groupCol r0)).length :=
    bucketPairs_length groupCol df r0
  have hmemZ : ∀ {q : DRow × DRow}, q ∈ bucketPairs groupCol df r0 → q ∈ zipMarked groupCol df :=
    fun hq => (List.filter_sublist _).subset hq
  have hbucketq : ∀ {q : DRow × DRow}, q ∈ bucketPairs groupCol df r0 →
      sameBucket groupCol r0 q.1 = true := by
    intro q hq
    have := (List.mem_filter.mp hq).2
    simpa using this
  have hfst : ∀ j (hj : j < (bucketPairs groupCol df r0).length)
      (hjF : j < ((sortedDf groupCol df).filter (sameBucket groupCol r0)).length),
      ((bucketPairs groupCol df r0).get ⟨j, hj⟩).1
        = ((sortedDf groupCol df).filter (sameBucket groupCol r0)).get ⟨j, hjF⟩ := by
    intro j hj hjF
    have h1 := get_map_at Prod.fst (bucketPairs groupCol df r0) j hj
      (by rw [List.length_map]; exact hj)
    rw [← h1]
    exact List.get_of_eq (bucketPairs_map_fst groupCol df r0) _
  have hgetcode : ∀ j (hj : j < (bucketPairs groupCol df r0).length),
      ((bucketPairs groupCol df r0).get ⟨j, hj⟩).2.merge_code
        = markedCode "C" "D"
            (((sortedDf groupCol df).filter (sameBucket groupCol r0)).length) (j + 1)
            (((bucketPairs groupCol df r0).get ⟨j, hj⟩).1.merge_code) := by
    intro j hj
    have hj2 : j < ((bucketPairs groupCol df r0).map (fun p => p.2.merge_code)).length := by
      rw [List.length_map]; exact hj
    have hjF : j < ((sortedDf groupCol df).filter (sameBucket groupCol r0)).length := by
      rw [← hBlen]; exact hj
    have hjE : j < (expectedCodes "C" "D"
        (((sortedDf groupCol df).filter (sameBucket groupCol r0)).length) 0
        (((sortedDf groupCol df).filter (sameBucket groupCol r0)).map
          (fun r => r.merge_code))).length := by
      rw [expectedCodes_length, List.length_map]
      exact hjF
    have hjM : j < (((sortedDf groupCol df).filter (sameBucket groupCol r0)).map
        (fun r => r.merge_code)).length := by
      rw [List.length_map]; exact hjF
    have e1 := get_map_at (fun p : DRow × DRow => p.2.merge_code)
      (bucketPairs groupCol df r0) j hj hj2
    have e2 := List.get_of_eq hcodes (⟨j, hj2⟩ : Fin _)
    have e3 := expectedCodes_get "C" "D"
      (((sortedDf groupCol df).filter (sameBucket groupCol r0)).length)
      (((sortedDf groupCol df).filter (sameBucket groupCol r0)).map
        (fun r => r.merge_code)) 0 j hjM hjE
    have e4 := get_map_at (fun r : DRow => r.merge_code)
      ((sortedDf groupCol df).filter (sameBucket groupCol r0)) j hjF hjM
    rw [← e1, e2, e3, e4, ← hfst j hj hjF]
    congr 1
    omega
  refine ⟨?_, ?_, ?_⟩
  · intro j hj
    constructor
    · intro hj0
      subst hj0
      have hcode := hgetcode 0 hj
      rw [markedCode_one] at hcode
      have hmem0 : (bucketPairs groupCol df r0).get ⟨0, hj⟩ ∈ bucketPairs groupCol df r0 :=
        List.get_mem _ _ _
      have hdf0 : ((bucketPairs groupCol df r0).get ⟨0, hj⟩).1 ∈ df :=
        mem_zipMarked_fst (hmemZ hmem0)
      have hCstart : strStartsWith
          ((bucketPairs groupCol df r0).get ⟨0, hj⟩).2.merge_code "C-" = true := by
        rw [hcode]
        exact primaryCode_startsWithC (hdash _ hdf0)
      refine ⟨hCstart, ?_, ?_⟩
      · -- the best row keeps its group number
        rcases markGo_pairs "C" "D" groupCol (sortedDf groupCol df) (sortedDf groupCol df)
            [] (maxGroupNumber df + 1) _ (hmemZ hmem0) with ⟨hnum, _⟩ | hfresh
        · exact hnum
        · exfalso
          obtain ⟨_, ⟨total, position, _, hdcode⟩⟩ := hfresh
          rw [hdcode] at hCstart
          have hds := dupCode_startsWith "D" total position
            ((bucketPairs groupCol df r0).get ⟨0, hj⟩).1.merge_code
          have hDD : ("D" : String) ++ "-" = "D-" := rfl
          rw [hDD] at hds
          rw [startsWith_D_not_C hds] at hCstart
          cases hCstart
      · -- the best row has the maximum score of the bucket
        intro q hq
        have hjF : 0 < ((sortedDf groupCol df).filter (sameBucket groupCol r0)).length := by
          rw [← hBlen]; exact hj
        obtain ⟨f0, ftl, hcons⟩ :=
          List.exists_cons_of_ne_nil (List.ne_nil_of_length_pos hjF)
        have hpw : List.Pairwise (fun a b => dKey groupCol a ≤ dKey groupCol b)
            ((sortedDf groupCol df).filter (sameBucket groupCol r0)) :=
          List.Pairwise.sublist (List.filter_sublist _) (sortByKey_pairwise _ df)
        rw [hcons, List.pairwise_cons] at hpw
        have hget0 : ((bucketPairs groupCol df r0).get ⟨0, hj⟩).1 = f0 := by
          rw [hfst 0 hj hjF, List.get_of_eq hcons]
          rfl
        have hq1F : q.1 ∈ (sortedDf groupCol df).filter (sameBucket groupCol r0) := by
          rw [← bucketPairs_map_fst]
          exact List.mem_map_of_mem Prod.fst hq
        have hf0b : sameBucket groupCol r0 f0 = true := by
          have : f0 ∈ (sortedDf groupCol df).filter (sameBucket groupCol r0) := by
            rw [hcons]; exact List.mem_cons_self _ _
          exact (List.mem_filter.mp this).2
        rw [hget0]
        rw [hcons] at hq1F
        rcases List.mem_cons.mp hq1F with he | hm
        · rw [he]
        · exact dKey_le_bucket_score hf0b (hbucketq hq) (hpw.1 q.1 hm)
    · intro hj0
      have hcode := hgetcode j hj
      have hjne : j + 1 ≠ 1 := by omega
      rw [markedCode, if_neg hjne] at hcode
      have hmemj : (bucketPairs groupCol df r0).get ⟨j, hj⟩ ∈ bucketPairs groupCol df r0 :=
        List.get_mem _ _ _
      have hdfj : ((bucketPairs groupCol df r0).get ⟨j, hj⟩).1 ∈ df :=
        mem_zipMarked_fst (hmemZ hmemj)
      cases hbd : afterDash ((bucketPairs groupCol df r0).get ⟨j, hj⟩).1.merge_code with
      | none => exact absurd hbd (hdash _ hdfj)
      | some b =>
        have hcode2 : ((bucketPairs groupCol df r0).get ⟨j, hj⟩).2.merge_code
            = (if 2 < ((sortedDf groupCol df).filter (sameBucket groupCol r0)).length
               then "D-" ++ b ++ "_" ++ Nat.repr (j + 1) else "D-" ++ b) := by
          rw [hcode, dupCode, hbd]
          by_cases h2 : 2 < ((sortedDf groupCol df).filter (sameBucket groupCol r0)).length
          · rw [if_pos h2, if_pos h2]
            rfl
          · rw [if_neg h2, if_neg h2]
            rfl
        have hDstart : strStartsWith
            ((bucketPairs groupCol df r0).get ⟨j, hj⟩).2.merge_code "D-" = true := by
          rw [hcode]
          have hds := dupCode_startsWith "D"
            (((sortedDf groupCol df).filter (sameBucket groupCol r0)).length) (j + 1)
            (((bucketPairs groupCol df r0).get ⟨j, hj⟩).1.merge_code)
          have hDD : ("D" : String) ++ "-" = "D-" := rfl
          rw [hDD] at hds
          exact hds
        refine ⟨⟨b, rfl, ?_, ?_⟩, hDstart, startsWith_D_not_C hDstart, ?_⟩
        · intro h2
          rw [hcode2, if_pos (by rw [← hBlen]; exact h2)]
        · intro h2
          rw [hcode2, if_neg (by rw [← hBlen]; omega)]
        · have := dup_coded_fresh hdash hnotdup (hmemZ hmemj) hDstart
          omega
  · have horig : ∀ r ∈ sortedDf groupCol df, r.group_number < maxGroupNumber df + 1 := by
      intro r hr
      have : r ∈ df := (sortByKey_perm (dKey groupCol) df).subset hr
      have := mem_le_maxGroupNumber this
      omega
    have hfresh := markGo_fresh "C" "D" groupCol (sortedDf groupCol df) (sortedDf groupCol df)
      [] (maxGroupNumber df + 1) horig
    refine hfresh.imp_of_mem ?_
    intro p q hp hq hrel hDp hDq
    have hnp := dup_coded_fresh hdash hnotdup hp hDp
    have hnq := dup_coded_fresh hdash hnotdup hq hDq
    have := hrel hnp hnq
    omega
  · intro p hp q hq hDp hDq
    have hnp := dup_coded_fresh hdash hnotdup hp hDp
    have hnq := nondup_coded_low hq hDq
    omega

/-- Three same-size rows of one group, scores 95 / 85 / 80. -/
def dfC6w : List DRow :=
  [⟨1, 10, some "30", "C-64", 95⟩, ⟨1, 10, some "30", "C-64", 85⟩,
    ⟨1, 10, some "30", "C-64", 80⟩]

def rowC6w : DRow := ⟨1, 10, some "30", "C-64", 95⟩

theorem C6_duplicate_marking_witness :
    strStartsWith ((bucketPairs (fun r => r.group_number) dfC6w rowC6w).get
      ⟨0, by decide⟩).2.merge_code "C-" = true :=
  (((C6_duplicate_marking (fun r => r.group_number) dfC6w rowC6w (by decide) (by decide)
    (by decide) (by decide)).1 0 (by decide)).1 rfl).1

/-! ## Greedy component splitting (_split_large_component, claim C4) -/

/-- Python max(iterable, key=f): the first element attaining the maximal key
(the running candidate is replaced only on a strictly greater key). -/
def firstMaxAux (f : Nat → Rat) : Nat → List Nat → Nat
  | cur, [] => cur
  | cur, x :: xs => firstMaxAux f (if f cur < f x then x else cur) xs

def firstMax (f : Nat → Rat) : List Nat → Option Nat
  | [] => none
  | x :: xs => some (firstMaxAux f x xs)

theorem firstMaxAux_mem (f : Nat → Rat) :
    ∀ (xs : List Nat) (cur : Nat), firstMaxAux f cur xs ∈ cur :: xs := by
  intro xs
  induction xs with
  | nil => intro cur; exact List.mem_singleton.mpr rfl
  | cons x xs ih =>
    intro cur
    rw [firstMaxAux]
    by_cases hc : f cur < f x
    · rw [if_pos hc]
      exact List.mem_cons_of_mem cur (ih x)
    · rw [if_neg hc]
      rcases List.mem_cons.mp (ih cur) with he | hm
      · rw [he]
        exact List.mem_cons_self _ _
      · exact List.mem_cons_of_mem _ (List.mem_cons_of_mem _ hm)

theorem firstMax_mem {f : Nat → Rat} :
    ∀ {l : List Nat} {x : Nat}, firstMax f l = some x → x ∈ l := by
  intro l x h
  cases l with
  | nil => cases h
  | cons y ys =>
    have : firstMaxAux f y ys = x := by
      have := h
      rw [firstMax] at this
      exact Option.some_injective _ this
    exact this ▸ firstMaxAux_mem f ys y

/-- The weighted edge map built from the candidate-pair rows: for an
unordered pair of keys inside the component, the maximum final_score over
the rows joining them (0 when absent, matching edges.get(key, 0.0)). -/
def edgeW (component : List Nat) (pairs : List (Nat × Nat × Rat)) (a b : Nat) : Rat :=
  pairs.foldl (fun acc p =>
    if p.1 ∈ component ∧ p.2.1 ∈ component
        ∧ Nat.min p.1 p.2.1 = Nat.min a b ∧ Nat.max p.1 p.2.1 = Nat.max a b
    then max acc p.2.2 else acc) 0

/-- The distinct unordered edge keys inside the component (the dict keys). -/
def edgeKeys (component : List Nat) (pairs : List (Nat × Nat × Rat)) : List (Nat × Nat) :=
  (pairs.filterMap (fun p =>
    if p.1 ∈ component ∧ p.2.1 ∈ component
    then some (Nat.min p.1 p.2.1, Nat.max p.1 p.2.1) else none)).dedup

/-- node_scores: each edge entry adds its weight to both endpoints. -/
def nodeScore (component : List Nat) (pairs : List (Nat × Nat × Rat)) (n : Nat) : Rat :=
  (edgeKeys component pairs).foldl (fun acc k =>
    acc + (if k.1 = n then edgeW component pairs k.1 k.2 else 0)
      + (if k.2 = n then edgeW component pairs k.1 k.2 else 0)) 0

/-- The inner while loop: grow the current group by the remaining node with
the strongest cached connection to the group, stopping at the size bound or
when no positively connected node remains.  The fuel argument is the number
of loop steps still allowed; the callers pass the length of remaining, which
always suffices since every step consumes one remaining node. -/
def growGroupF (edges : Nat → Nat → Rat) (maxSize : Nat) :
    Nat → List Nat → (Nat → Rat) → List Nat → List Nat × List Nat
  | 0, group, _, remaining => (group, remaining)
  | _ + 1, group, _, [] => (group, [])
  | fuel + 1, group, conn, x :: xs =>
    if group.length < maxSize then
      if conn (firstMaxAux conn x xs) ≤ 0 then (group, x :: xs)
      else growGroupF edges maxSize fuel (group ++ [firstMaxAux conn x xs])
        (fun n => conn n + edges (firstMaxAux conn x xs) n)
        ((x :: xs).erase (firstMaxAux conn x xs))
    else (group, x :: xs)

theorem growGroupF_perm (edges : Nat → Nat → Rat) (maxSize : Nat) :
    ∀ (fuel : Nat) (group : List Nat) (conn : Nat → Rat) (remaining : List Nat),
      ((growGroupF edges maxSize fuel group conn remaining).1
        ++ (growGroupF edges maxSize fuel group conn remaining).2).Perm
        (group ++ remaining) := by
  intro fuel
  induction fuel with
  | zero => intro group conn remaining; exact List.Perm.refl _
  | succ fuel ih =>
    intro group conn remaining
    cases remaining with
    | nil => exact List.Perm.refl _
    | cons x xs =>
      rw [growGroupF]
      by_cases hc : group.length < maxSize
      · rw [if_pos hc]
        by_cases hb : conn (firstMaxAux conn x xs) ≤ 0
        · rw [if_pos hb]
        · rw [if_neg hb]
          refine (ih _ _ _).trans ?_
          have hbm : firstMaxAux conn x xs ∈ x :: xs := firstMaxAux_mem conn xs x
          have h1 : (firstMaxAux conn x xs :: ((x :: xs).erase (firstMaxAux conn x xs))).Perm
              (x :: xs) := (List.perm_cons_erase hbm).symm
          have h2 : group ++ [firstMaxAux conn x xs] ++ (x :: xs).erase (firstMaxAux conn x xs)
              = group ++ (firstMaxAux conn x xs :: (x :: xs).erase (firstMaxAux conn x xs)) := by
            simp
          rw [h2]
          exact List.Perm.append_left group h1
      · rw [if_neg hc]

theorem growGroupF_group_le (edges : Nat → Nat → Rat) (maxSize : Nat) :
    ∀ (fuel : Nat) (group : List Nat) (conn : Nat → Rat) (remaining : List Nat),
      group.length ≤ maxSize →
      (growGroupF edges maxSize fuel group conn remaining).1.length ≤ maxSize := by
  intro fuel
  induction fuel with
  | zero => intro group conn remaining hg; exact hg
  | succ fuel ih =>
    intro group conn remaining hg
    cases remaining with
    | nil => exact hg
    | cons x xs =>
      rw [growGroupF]
      by_cases hc : group.length < maxSize
      · rw [if_pos hc]
        by_cases hb : conn (firstMaxAux conn x xs) ≤ 0
        · rw [if_pos hb]
          exact hg
        · rw [if_neg hb]
          refine ih _ _ _ ?_
          rw [List.length_append]
          simp
          omega
      · rw [if_neg hc]
        exact hg

theorem growGroupF_rest_le (edges : Nat → Nat → Rat) (maxSize : Nat) :
    ∀ (fuel : Nat) (group : List Nat) (conn : Nat → Rat) (remaining : List Nat),
      (growGroupF edges maxSize fuel group conn remaining).2.length ≤ remaining.length := by
  intro fuel
  induction fuel with
  | zero => intro group conn remaining; exact le_refl _
  | succ fuel ih =>
    intro group conn remaining
    cases remaining with
    | nil => exact le_refl _
    | cons x xs =>
      rw [growGroupF]
      by_cases hc : group.length < maxSize
      · rw [if_pos hc]
        by_cases hb : conn (firstMaxAux conn x xs) ≤ 0
        · rw [if_pos hb]
        · rw [if_neg hb]
          refine le_trans (ih _ _ _) ?_
          exact List.length_erase_le _ _
      · rw [if_neg hc]

/-- One outer iteration: pick the highest-scoring remaining node as seed and
grow its subgroup from the nodes left after removing the seed. -/
def splitStep (edges : Nat → Nat → Rat) (maxSize : Nat) (scores : Nat → Rat)
    (x : Nat) (xs : List Nat) : List Nat × List Nat :=
  growGroupF edges maxSize ((x :: xs).erase (firstMaxAux scores x xs)).length
    [firstMaxAux scores x xs] (fun n => edges (firstMaxAux scores x xs) n)
    ((x :: xs).erase (firstMaxAux scores x xs))

/-- The outer loop: start each new subgroup from the highest-scoring
remaining node and grow it; fuel bounds the number of outer iterations
(each consumes at least the seed, so the length of remaining suffices). -/
def splitLoopF (edges : Nat → Nat → Rat) (maxSize : Nat) (scores : Nat → Rat) :
    Nat → List Nat → List (List Nat)
  | 0, _ => []
  | _ + 1, [] => []
  | fuel + 1, x :: xs =>
    (splitStep edges maxSize scores x xs).1
      :: splitLoopF edges maxSize scores fuel (splitStep edges maxSize scores x xs).2

theorem splitLoopF_perm (edges : Nat → Nat → Rat) (maxSize : Nat) (scores : Nat → Rat) :
    ∀ (fuel : Nat) (remaining : List Nat), remaining.length ≤ fuel →
      (splitLoopF edges maxSize scores fuel remaining).flatten.Perm remaining := by
  intro fuel
  induction fuel with
  | zero =>
    intro remaining hlen
    rw [List.length_eq_zero.mp (Nat.le_zero.mp hlen)]
    exact List.Perm.refl _
  | succ fuel ih =>
    intro remaining hlen
    cases remaining with
    | nil => exact List.Perm.refl _
    | cons x xs =>
      rw [splitLoopF]
      have hseed : firstMaxAux scores x xs ∈ x :: xs := firstMaxAux_mem scores xs x
      have herase : ((x :: xs).erase (firstMaxAux scores x xs)).length = xs.length := by
        rw [List.length_erase_of_mem hseed]
        rfl
      have hrest : (growGroupF edges maxSize ((x :: xs).erase (firstMaxAux scores x xs)).length
          [firstMaxAux scores x xs] (fun n => edges (firstMaxAux scores x xs) n)
          ((x :: xs).erase (firstMaxAux scores x xs))).2.length ≤ xs.length := by
        refine le_trans (growGroupF_rest_le _ _ _ _ _ _) ?_
        rw [herase]
      have hfuel : _ ≤ fuel := le_trans hrest (by simpa using hlen)
      rw [List.flatten_cons]
      refine ((ih _ hfuel).append_left _).trans ?_
      refine (growGroupF_perm edges maxSize _ _ _ _).trans ?_
      have : (firstMaxAux scores x xs) :: ((x :: xs).erase (firstMaxAux scores x xs))
          |>.Perm (x :: xs) := (List.perm_cons_erase hseed).symm
      simpa using this

theorem splitLoopF_group_le (edges : Nat → Nat → Rat) (maxSize : Nat) (scores : Nat → Rat)
    (hmax : 1 ≤ maxSize) :
    ∀ (fuel : Nat) (remaining : List Nat),
      ∀ g ∈ splitLoopF edges maxSize scores fuel remaining, g.length ≤ maxSize := by
  intro fuel
  induction fuel with
  | zero => intro remaining g hg; cases hg
  | succ fuel ih =>
    intro remaining g hg
    cases remaining with
    | nil => cases hg
    | cons x xs =>
      rw [splitLoopF] at hg
      rcases List.mem_cons.mp hg with he | hm
      · subst he
        exact growGroupF_group_le edges maxSize _ _ _ _ (by simpa using hmax)
      · exact ih _ _ hm

/-- Model of _split_large_component: components at or under the bound pass
through unchanged (this also covers the unreachable empty-component branch,
which the early return already catches); larger ones are split greedily. -/
def splitLargeComponent (component : List Nat) (pairs : List (Nat × Nat × Rat))
    (maxSize : Nat) : List (List Nat) :=
  if component.length ≤ maxSize then [component]
  else if component = [] then []
  else splitLoopF (edgeW component pairs) maxSize (nodeScore component pairs)
    component.length component

/-- C4: with a configured bound of at least 1, a component at or under the
bound is returned unchanged as a single group; a larger component is split
into subgroups that each respect the bound and that partition the component:
their concatenation is a permutation of it, so every member occurs in the
output exactly as often as in the input (exactly once for a component given
as a set of distinct keys). -/
theorem C4_split_partition (component : List Nat) (pairs : List (Nat × Nat × Rat))
    (maxSize : Nat) (hmax : 1 ≤ maxSize) :
    (component.length ≤ maxSize →
      splitLargeComponent component pairs maxSize = [component]) ∧
    (maxSize < component.length →
      (∀ g ∈ splitLargeComponent component pairs maxSize, g.length ≤ maxSize)
      ∧ (splitLargeComponent component pairs maxSize).flatten.Perm component
      ∧ (∀ x, (splitLargeComponent component pairs maxSize).flatten.count x
          = component.count x)) := by
  constructor
  · intro hle
    rw [splitLargeComponent, if_pos hle]
  · intro hgt
    have hne : ¬ component.length ≤ maxSize := by omega
    have hnenil : ¬ component = [] := by
      intro he
      rw [he] at hgt
      simp at hgt
    have hunfold : splitLargeComponent component pairs maxSize
        = splitLoopF (edgeW component pairs) maxSize (nodeScore component pairs)
            component.length component := by
      rw [splitLargeComponent, if_neg hne, if_neg hnenil]
    have hperm : (splitLargeComponent component pairs maxSize).flatten.Perm component := by
      rw [hunfold]
      exact splitLoopF_perm _ _ _ _ _ (le_refl _)
    refine ⟨?_, hperm, fun x => hperm.count_eq x⟩
    intro g hg
    rw [hunfold] at hg
    exact splitLoopF_group_le _ _ _ hmax _ _ g hg

theorem C4_split_partition_witness :
    splitLargeComponent [1, 2] [] 5 = [[1, 2]] :=
  (C4_split_partition [1, 2] [] 5 (by decide)).1 (by decide)

/-! ## Similarity scoring (similarity_config.py and the scored CTE, claim C5) -/

/-- The scoring configuration, with the source defaults.  Integer weights are
modelled as rationals since the SQL arithmetic mixes them with the DOUBLE
penalty multiplier. -/
structure SimilarityScoringConfig where
  base_score : Rat := 100
  max_score : Rat := 600
  season_match_bonus : Rat := 80
  season_mismatch_penalty : Rat := -40
  color_match_bonus : Rat := 40
  material_match_bonus : Rat := 40
  fastener_match_bonus : Rat := 30
  mega_last_bonus : Rat := 90
  best_last_bonus : Rat := 70
  new_last_bonus : Rat := 50
  model_match_bonus : Rat := 40
  no_last_penalty_multiplier : Rat := 7/10
  min_score_threshold : Rat := 300
  max_candidates_per_seed : Nat := 30
  max_group_size : Option Nat := some 10
deriving DecidableEq, Repr

/-- The validate() checks of SimilarityScoringConfig. -/
def cfgValid (cfg : SimilarityScoringConfig) : Bool :=
  decide (0 < cfg.base_score) && decide (0 < cfg.min_score_threshold)
    && decide (cfg.min_score_threshold < cfg.max_score)
    && decide (0 < cfg.max_candidates_per_seed)
    && decide (0 < cfg.no_last_penalty_multiplier)
    && decide (cfg.no_last_penalty_multiplier ≤ 1)
    && (match cfg.max_group_size with | none => true | some m => decide (0 < m))

/-- A row of the pairs CTE in the punta-enabled branch: one seed/candidate
pair with both sides' punta_google attributes (NULL when the punta row or
the attribute is missing). -/
structure PairRow where
  seed_wb_sku : Nat
  cand_wb_sku : Nat
  seed_season : Option String
  cand_season : Option String
  seed_color : Option String
  cand_color : Option String
  seed_fastener : Option String
  cand_fastener : Option String
  seed_material : Option String
  cand_material : Option String
  seed_mega_last : Option String
  cand_mega_last : Option String
  seed_best_last : Option String
  cand_best_last : Option String
  seed_new_last : Option String
  cand_new_last : Option String
  seed_model_name : Option String
  cand_model_name : Option String
deriving DecidableEq, Repr

/-- season_score: bonus or penalty only when both sides are set. -/
def seasonScore (cfg : SimilarityScoringConfig) (p : PairRow) : Rat :=
  match p.seed_season, p.cand_season with
  | some a, some b => if a = b then cfg.season_match_bonus else cfg.season_mismatch_penalty
  | _, _ => 0

/-- color_score: CASE WHEN seed_color IS NOT NULL AND seed_color = cand_color.
The SQL equality against a NULL candidate is never TRUE. -/
def colorScore (cfg : SimilarityScoringConfig) (p : PairRow) : Rat :=
  match p.seed_color, p.cand_color with
  | some a, some b => if a = b then cfg.color_match_bonus else 0
  | _, _ => 0

def materialScore (cfg : SimilarityScoringConfig) (p : PairRow) : Rat :=
  match p.seed_material, p.cand_material with
  | some a, some b => if a = b then cfg.material_match_bonus else 0
  | _, _ => 0

def fastenerScore (cfg : SimilarityScoringConfig) (p : PairRow) : Rat :=
  match p.seed_fastener, p.cand_fastener with
  | some a, some b => if a = b then cfg.fastener_match_bonus else 0
  | _, _ => 0

/-- The last-tier / model-name condition: seed side set and non-empty and
equal to the candidate side (a NULL candidate never matches). -/
def lastTierCond (a b : Option String) : Bool :=
  match a, b with
  | some x, some y => decide (x ≠ "") && decide (x = y)
  | _, _ => false

/-- last_score: the tiered CASE of the scored CTE, first matching tier wins. -/
def lastScore (cfg : SimilarityScoringConfig) (p : PairRow) : Rat :=
  if lastTierCond p.seed_mega_last p.cand_mega_last then cfg.mega_last_bonus
  else if lastTierCond p.seed_best_last p.cand_best_last then cfg.best_last_bonus
  else if lastTierCond p.seed_new_last p.cand_new_last then cfg.new_last_bonus
  else 0

def modelScore (cfg : SimilarityScoringConfig) (p : PairRow) : Rat :=
  if lastTierCond p.seed_model_name p.cand_model_name then cfg.model_match_bonus else 0

/-- raw_score. -/
def rawScore (cfg : SimilarityScoringConfig) (p : PairRow) : Rat :=
  cfg.base_score + seasonScore cfg p + colorScore cfg p + materialScore cfg p
    + fastenerScore cfg p + lastScore cfg p + modelScore cfg p

/-- adjusted_score: the whole sum is multiplied by the penalty multiplier
exactly when last_score is 0. -/
def adjustedScore (cfg : SimilarityScoringConfig) (p : PairRow) : Rat :=
  if lastScore cfg p = 0 then rawScore cfg p * cfg.no_last_penalty_multiplier
  else rawScore cfg p

/-- final_score = LEAST(max_score, adjusted_score). -/
def finalScore (cfg : SimilarityScoringConfig) (p : PairRow) : Rat :=
  min cfg.max_score (adjustedScore cfg p)

/-- The spec wording of a tier match: both sides hold the same non-empty tag. -/
def bothNonEmptyEq (a b : Option String) : Prop :=
  ∃ s, s ≠ "" ∧ a = some s ∧ b = some s

theorem lastTierCond_iff (a b : Option String) :
    lastTierCond a b = true ↔ bothNonEmptyEq a b := by
  constructor
  · intro h
    match a, b with
    | some x, some y =>
      rw [lastTierCond, Bool.and_eq_true, decide_eq_true_eq, decide_eq_true_eq] at h
      exact ⟨x, h.1, rfl, by rw [h.2]⟩
    | none, _ => cases h
    | some x, none => cases h
  · intro ⟨s, hs, ha, hb⟩
    subst ha
    subst hb
    rw [lastTierCond, Bool.and_eq_true, decide_eq_true_eq, decide_eq_true_eq]
    exact ⟨hs, rfl⟩

/-- C5: the last bonus is tiered with mega before best before new, a tier
firing exactly when both sides carry the same non-empty tag, the first
firing tier excluding the lower ones; when the resulting last bonus is 0 the
entire accumulated sum (base score included) is multiplied by the penalty
multiplier and otherwise left unmultiplied; the result is capped at
max_score. -/
theorem C5_last_tier_scoring (cfg : SimilarityScoringConfig) (p : PairRow) :
    (bothNonEmptyEq p.seed_mega_last p.cand_mega_last →
      lastScore cfg p = cfg.mega_last_bonus) ∧
    (¬ bothNonEmptyEq p.seed_mega_last p.cand_mega_last →
      bothNonEmptyEq p.seed_best_last p.cand_best_last →
      lastScore cfg p = cfg.best_last_bonus) ∧
    (¬ bothNonEmptyEq p.seed_mega_last p.cand_mega_last →
      ¬ bothNonEmptyEq p.seed_best_last p.cand_best_last →
      bothNonEmptyEq p.seed_new_last p.cand_new_last →
      lastScore cfg p = cfg.new_last_bonus) ∧
    (¬ bothNonEmptyEq p.seed_mega_last p.cand_mega_last →
      ¬ bothNonEmptyEq p.seed_best_last p.cand_best_last →
      ¬ bothNonEmptyEq p.seed_new_last p.cand_new_last →
      lastScore cfg p = 0) ∧
    (lastScore cfg p = 0 →
      adjustedScore cfg p = rawScore cfg p * cfg.no_last_penalty_multiplier) ∧
    (lastScore cfg p ≠ 0 → adjustedScore cfg p = rawScore cfg p) ∧
    finalScore cfg p = min cfg.max_score (adjustedScore cfg p) := by
  refine ⟨?_, ?_, ?_, ?_, ?_, ?_, rfl⟩
  · intro h
    rw [lastScore, if_pos ((lastTierCond_iff _ _).mpr h)]
  · intro hm hb
    rw [lastScore, if_neg (fun hc => hm ((lastTierCond_iff _ _).mp hc)),
      if_pos ((lastTierCond_iff _ _).mpr hb)]
  · intro hm hb hn
    rw [lastScore, if_neg (fun hc => hm ((lastTierCond_iff _ _).mp hc)),
      if_neg (fun hc => hb ((lastTierCond_iff _ _).mp hc)),
      if_pos ((lastTierCond_iff _ _).mpr hn)]
  · intro hm hb hn
    rw [lastScore, if_neg (fun hc => hm ((lastTierCond_iff _ _).mp hc)),
      if_neg (fun hc => hb ((lastTierCond_iff _ _).mp hc)),
      if_neg (fun hc => hn ((lastTierCond_iff _ _).mp hc))]
  · intro h
    rw [adjustedScore, if_pos h]
  · intro h
    rw [adjustedScore, if_neg h]

/-- A pair whose mega tags agree on the non-empty tag L1. -/
def pairC5w : PairRow :=
  { seed_wb_sku := 100
    cand_wb_sku := 101
    seed_season := some "WINTER"
    cand_season := some "WINTER"
    seed_color := some "RED"
    cand_color := some "RED"
    seed_fastener := none
    cand_fastener := none
    seed_material := none
    cand_material := none
    seed_mega_last := some "L1"
    cand_mega_last := some "L1"
    seed_best_last := none
    cand_best_last := none
    seed_new_last := none
    cand_new_last := none
    seed_model_name := none
    cand_model_name := none }

theorem C5_last_tier_scoring_witness :
    lastScore ({} : SimilarityScoringConfig) pairC5w
      = ({} : SimilarityScoringConfig).mega_last_bonus :=
  (C5_last_tier_scoring ({} : SimilarityScoringConfig) pairC5w).1
    ⟨"L1", by decide, rfl, rfl⟩

/-! ## Error handling of the public operations (claim C8) -/

def exceptIsOk {ε α : Type} : Except ε α → Bool
  | .ok _ => true
  | .error _ => false

/-- C8 (amended): the single-key operations and find_by_barcodes raise a
validation error on an empty (or all-whitespace) input set, but the batch
operation search_matches does not: it returns an empty frame.  A non-empty
input for which no barcode is shared between the two catalogs returns an
empty result without raising. -/
theorem C8_empty_input :
    (∀ db limit, findWbByOz db "" limit = .error "oz_sku is empty") ∧
    (∀ db limit, findOzByWb db "" limit = .error "wb_sku is empty") ∧
    (∀ db barcodes limit, normalizeBarcodes barcodes = [] →
      findByBarcodes db barcodes limit = .error "barcodes are empty") ∧
    (∀ db input_type inputs limit, normalizeBarcodes inputs = [] →
      searchMatches db input_type inputs limit = .ok (.skuRows [])) ∧
    (∀ db s n limit, parseNat s = some n → s ≠ "" →
      (∀ o ∈ ozBarcodesTable db (some [n]), ∀ w ∈ wbBarcodesTable db none,
        o.barcode ≠ w.barcode) →
      findWbByOz db s limit = .ok []) := by
  refine ⟨?_, ?_, ?_, ?_, ?_⟩
  · intro db limit
    unfold findWbByOz
    rw [if_pos rfl]
  · intro db limit
    unfold findOzByWb
    rw [if_pos rfl]
  · intro db barcodes limit h
    unfold findByBarcodes
    rw [h]
    rfl
  · intro db input_type inputs limit h
    unfold searchMatches
    rw [h]
    rfl
  · intro db s n limit hn hs hdisj
    have hjoin : ozJoined db [n] = [] := by
      rw [ozJoined, List.flatMap_eq_nil_iff]
      intro o ho
      have hfil : (wbBarcodesTable db none).filter
          (fun w => decide (w.barcode = o.barcode)) = [] := by
        rw [List.filter_eq_nil_iff]
        intro w hw hc
        exact hdisj o ho w hw ((decide_eq_true_eq.mp hc).symm)
      rw [hfil]
      rfl
    have hcast : castSkus [s] = Except.ok [n] := by
      have h0 : castSkus [s] = (match parseNat s with
        | none => (.error "could not cast value to UBIGINT" : Except String (List Nat))
        | some m => (castSkus []).map (fun l => m :: l)) := rfl
      rw [h0, hn]
      rfl
    unfold findWbByOz
    rw [if_neg hs, hcast]
    show Except.ok (matchesForOzSkus db [n] limit) = Except.ok []
    unfold matchesForOzSkus
    rw [hjoin]
    rfl

def dbC8x : Db := ⟨[], [], [], [], false, [], false⟩

/-- C8 is false as stated: search_matches is an exact-match public operation,
yet on an empty input set it returns an empty frame instead of raising. -/
theorem C8_counterexample :
    searchMatches dbC8x "oz_sku" [] (some 5) = .ok (.skuRows [])
    ∧ exceptIsOk (searchMatches dbC8x "oz_sku" [] (some 5)) = true := by
  exact ⟨rfl, rfl⟩

theorem C8_empty_input_witness :
    findByBarcodes dbC8x [" "] none = .error "barcodes are empty" :=
  C8_empty_input.2.2.1 dbC8x [" "] none (by decide)

/-! ## The similarity pipeline (search_similar_matches, claims C9 and C10) -/

/-- wb_list: the inputs stripped, with empties dropped. -/
def wbList (inputs : List String) : List String :=
  (inputs.map trimStr).filter (fun s => decide (s ≠ ""))

/-- The seed CTE: SELECT DISTINCT CAST(seed_wb_sku AS UBIGINT) over the
inputs passing the leading-digits regex; the regex guard together with the
cast is modelled as one decimal parse, and DISTINCT as first-occurrence
dedup. -/
def seedKeys (inputs : List String) : List Nat :=
  ((wbList inputs).filterMap parseNat).dedup

/-- The seed_enriched CTE: LEFT JOIN wb_products ON wb_sku under the
WHERE wp.wb_sku IS NOT NULL guard, an inner join attaching the product
seller_category and gender to each resolved seed. -/
def seedEnriched (db : Db) (inputs : List String) :
    List (Nat × Option String × Option String) :=
  (seedKeys inputs).flatMap (fun s =>
    (db.wb_products.filter (fun w => decide (w.wb_sku = s))).map
      (fun w => (s, w.seller_category, w.gender)))

/-- SQL equality on two nullable text columns: TRUE only when both sides are
set and equal (a NULL never compares equal). -/
def sqlEqStr (a b : Option String) : Bool :=
  match a, b with
  | some x, some y => decide (x = y)
  | _, _ => false

/-- The candidates CTE: wb_products joined to seed_enriched on equal
seller_category and gender, excluding the seed itself; each row is kept as
the (seed_wb_sku, cand_wb_sku) pair. -/
def candidatePairs (db : Db) (inputs : List String) : List (Nat × Nat) :=
  db.wb_products.flatMap (fun c =>
    (seedEnriched db inputs).filterMap (fun s =>
      if sqlEqStr s.2.1 c.seller_category && sqlEqStr s.2.2 c.gender
          && decide (c.wb_sku ≠ s.1)
      then some (s.1, c.wb_sku) else none))

/-- The join of the pairs CTE back onto seed_enriched on the seed key, which
repeats a candidate row once per enriched row of its seed. -/
def pairsKeys (db : Db) (inputs : List String) : List (Nat × Nat) :=
  (candidatePairs db inputs).flatMap (fun p =>
    ((seedEnriched db inputs).filter (fun s => decide (s.1 = p.1))).map (fun _ => p))

/-- The punta_google rows of one key (the pg_seed / pg_cand CTEs). -/
def pgRows (db : Db) (k : Nat) : List PuntaGoogleRow :=
  db.punta_google.filter (fun r => decide (r.wb_sku = k))

/-- LEFT JOIN row multiplicity: every matching right row, or a single NULL
row when none matches. -/
def leftJoinOpt {β : Type} (l : List β) : List (Option β) :=
  match l with
  | [] => [none]
  | _ => l.map some

/-- One pairs row: the seed and candidate keys with both sides of the
punta_google attributes (NULL when the punta row or the field is missing). -/
def mkSimPair (s c : Nat) (ps pc : Option PuntaGoogleRow) : PairRow :=
  { seed_wb_sku := s
    cand_wb_sku := c
    seed_season := ps.bind (fun r => r.season)
    cand_season := pc.bind (fun r => r.season)
    seed_color := ps.bind (fun r => r.color)
    cand_color := pc.bind (fun r => r.color)
    seed_fastener := ps.bind (fun r => r.lacing_type)
    cand_fastener := pc.bind (fun r => r.lacing_type)
    seed_material := ps.bind (fun r => r.material_short)
    cand_material := pc.bind (fun r => r.material_short)
    seed_mega_last := ps.bind (fun r => r.mega_last)
    cand_mega_last := pc.bind (fun r => r.mega_last)
    seed_best_last := ps.bind (fun r => r.best_last)
    cand_best_last := pc.bind (fun r => r.best_last)
    seed_new_last := ps.bind (fun r => r.new_last)
    cand_new_last := pc.bind (fun r => r.new_last)
    seed_model_name := ps.bind (fun r => r.model_name)
    cand_model_name := pc.bind (fun r => r.model_name) }

/-- The material hard filter of the punta branch: both sides set and unequal
rejects the pair; a NULL on either side passes. -/
def materialOk (p : PairRow) : Bool :=
  match p.seed_material, p.cand_material with
  | some a, some b => decide (a = b)
  | _, _ => true

/-- The pairs CTE: with punta_google present, the two punta LEFT JOINs
followed by the material filter; without it, bare key pairs (their attribute
columns do not exist, modelled as all NULL). -/
def simPairs (db : Db) (inputs : List String) : List PairRow :=
  if db.punta_google_exists then
    ((pairsKeys db inputs).flatMap (fun p =>
      (leftJoinOpt (pgRows db p.1)).flatMap (fun ps =>
        (leftJoinOpt (pgRows db p.2)).map (fun pc => mkSimPair p.1 p.2 ps pc)))).filter
      materialOk
  else (pairsKeys db inputs).map (fun p => mkSimPair p.1 p.2 none none)

/-- final_score of one pairs row: the scored CTE when punta_google exists,
the constant base_score columns otherwise. -/
def pairScore (db : Db) (cfg : SimilarityScoringConfig) (p : PairRow) : Rat :=
  if db.punta_google_exists then finalScore cfg p else cfg.base_score

/-- The filtered CTE: final_score at or above the threshold. -/
def simFiltered (db : Db) (cfg : SimilarityScoringConfig) (inputs : List String) :
    List PairRow :=
  (simPairs db inputs).filter
    (fun p => decide (cfg.min_score_threshold ≤ pairScore db cfg p))

/-- Maximum of a rational list (0 on the empty list; the callers aggregate
nonempty groups only). -/
def listMaxD : List Rat → Rat
  | [] => 0
  | x :: xs => xs.foldl max x

/-- The deduped CTE: GROUP BY (seed_wb_sku, cand_wb_sku) with
MAX(final_score), groups in first-occurrence order. -/
def simDeduped (db : Db) (cfg : SimilarityScoringConfig) (inputs : List String) :
    List (Nat × Nat × Rat) :=
  (((simFiltered db cfg inputs).map (fun p => (p.seed_wb_sku, p.cand_wb_sku))).dedup).map
    (fun k => (k.1, k.2, listMaxD (((simFiltered db cfg inputs).filter (fun p =>
      decide (p.seed_wb_sku = k.1) && decide (p.cand_wb_sku = k.2))).map
        (pairScore db cfg))))

/-- Ranking key of one deduped row: final_score DESC, cand_wb_sku ASC. -/
def simPairKey (t : Nat × Nat × Rat) : Lex (Rat × Nat) := toLex (-t.2.2, t.2.1)

/-- The ranked CTE plus the outer SELECT: ROW_NUMBER over (PARTITION BY
seed_wb_sku ORDER BY final_score DESC, cand_wb_sku), keeping rn at most
max_candidates_per_seed, output ordered by seed_wb_sku, final_score DESC,
cand_wb_sku. -/
def simRanked (db : Db) (cfg : SimilarityScoringConfig) (inputs : List String) :
    List (Nat × Nat × Rat) :=
  (sortByKey id (((simDeduped db cfg inputs).map (fun t => t.1)).dedup)).flatMap
    (fun k => (sortByKey simPairKey
      ((simDeduped db cfg inputs).filter (fun t => decide (t.1 = k)))).take
        cfg.max_candidates_per_seed)

/-- Insert or overwrite one key of an insertion-ordered dict. -/
def scoreSet (l : List (Nat × Rat)) (k : Nat) (v : Rat) : List (Nat × Rat) :=
  if l.any (fun e => decide (e.1 = k)) then
    l.map (fun e => if e.1 = k then (k, v) else e)
  else l ++ [(k, v)]

/-- Insertion-ordered dict lookup. -/
def scoreGet (l : List (Nat × Rat)) (k : Nat) : Option Rat :=
  (l.find? (fun e => decide (e.1 = k))).map (fun e => e.2)

/-- similarity_scores: one pass over the ranked rows writing each candidate
final_score (last row wins), then each distinct seed not yet present gets
the maximum of its own finals (base_score when it has none). -/
def simScores (cfg : SimilarityScoringConfig) (pairsR : List (Nat × Nat × Rat)) :
    List (Nat × Rat) :=
  ((pairsR.map (fun t => t.1)).dedup).foldl (fun acc s =>
    if (scoreGet acc s).isSome then acc
    else scoreSet acc s
      (match (pairsR.filter (fun t => decide (t.1 = s))).map (fun t => t.2.2) with
       | [] => cfg.base_score
       | x :: xs => xs.foldl max x))
    (pairsR.foldl (fun acc t => scoreSet acc t.2.1 t.2.2) [])

/-- Union-find state as the component list in first-insertion order (the
order the CPython parent dict keys are created in). -/
def ufAdd (comps : List (List Nat)) (a : Nat) : List (List Nat) :=
  if comps.any (fun c => decide (a ∈ c)) then comps else comps ++ [[a]]

/-- union(a, b): merge the two components holding a and b (both present) by
absorbing the later one into the earlier position, which preserves the
first-member order the comp_map dict later iterates in. -/
def ufUnion (comps : List (List Nat)) (a b : Nat) : List (List Nat) :=
  match comps.findIdx? (fun c => decide (a ∈ c)),
      comps.findIdx? (fun c => decide (b ∈ c)) with
  | some i, some j =>
    if i = j then comps
    else (comps.set (Nat.min i j)
      (comps.getD (Nat.min i j) [] ++ comps.getD (Nat.max i j) [])).eraseIdx (Nat.max i j)
  | _, _ => comps

/-- The union-find loop over the ranked rows (seed then candidate per row),
followed by the seed setdefault pass. -/
def buildComponents (pairsR : List (Nat × Nat × Rat)) : List (List Nat) :=
  ((pairsR.map (fun t => t.1)).dedup).foldl ufAdd
    (pairsR.foldl (fun comps t => ufUnion (ufAdd (ufAdd comps t.1) t.2.1) t.1 t.2.1) [])

/-- The optional splitting pass: with a configured max_group_size, oversized
components are split greedily and the rest pass through. -/
def splitComponents (cfg : SimilarityScoringConfig) (pairsR : List (Nat × Nat × Rat))
    (comps : List (List Nat)) : List (List Nat) :=
  match cfg.max_group_size with
  | none => comps
  | some m => comps.flatMap (fun comp =>
      if m < comp.length then splitLargeComponent comp pairsR m else [comp])

/-- The component list one invocation assigns codes from. -/
def simComponents (db : Db) (cfg : SimilarityScoringConfig) (inputs : List String) :
    List (List Nat) :=
  splitComponents cfg (simRanked db cfg inputs)
    (buildComponents (simRanked db cfg inputs))

/-- all_wb: the sorted distinct union of seed and candidate keys. -/
def simAllWb (pairsR : List (Nat × Nat × Rat)) : List Nat :=
  sortByKey id ((pairsR.map (fun t => t.1) ++ pairsR.map (fun t => t.2.1)).dedup)

/-- Split a character list at every dash (Python str.split on a dash). -/
def splitDashAll : List Char → List (List Char)
  | [] => [[]]
  | c :: cs =>
    if c = '-' then [] :: splitDashAll cs
    else
      match splitDashAll cs with
      | [] => [[c]]
      | h :: t => (c :: h) :: t

/-- extract_color: the trimmed middle segment of a dash-separated vendor
code with at least three segments, otherwise empty. -/
def extractColor (ozvc : String) : String :=
  if ozvc = "" then ""
  else
    let parts := (splitDashAll ozvc.data).map (fun l => String.mk l)
    if 3 ≤ parts.length then trimStr (parts.getD 1 "") else ""

/-- One output row of search_similar_matches. -/
structure SimRow where
  group_number : Nat
  wb_sku : Nat
  oz_sku : Nat
  oz_vendor_code : String
  oz_manufacturer_size : Option String
  merge_code : String
  merge_color : String
  match_score : Nat
  similarity_score : Rat
deriving DecidableEq, Repr

/-- merge_code_to_group dict lookup. -/
def groupGet (l : List (String × Nat)) (k : String) : Option Nat :=
  (l.find? (fun e => decide (e.1 = k))).map (fun e => e.2)

/-- The output-row loop over the exact-match rows: each row takes its
component merge code (or a fresh singleton code from its own key), group
numbers continue past the component numbering for codes met first here, and
the color middle segment joins the hexadecimal key in merge_color. -/
def buildRows (comps : List (List Nat)) (scores : List (Nat × Rat)) :
    List (String × Nat) → Nat → List MatchRow → List SimRow
  | _, _, [] => []
  | dict, nextNum, r :: rest =>
    let wb := r.wb_sku
    let mc := (mappingLookup comps wb).getD ("C-" ++ toHexUpper wb, toHexUpper wb)
    let dict2 := if (groupGet dict mc.1).isSome then dict else dict ++ [(mc.1, nextNum)]
    let nextNum2 := if (groupGet dict mc.1).isSome then nextNum else nextNum + 1
    let colorMid := extractColor r.oz_vendor_code
    { group_number := (groupGet dict2 mc.1).getD 0
      wb_sku := r.wb_sku
      oz_sku := r.oz_sku
      oz_vendor_code := r.oz_vendor_code
      oz_manufacturer_size := r.oz_manufacturer_size
      merge_code := mc.1
      merge_color := if colorMid ≠ "" then colorMid ++ "; " ++ toHexUpper wb
        else toHexUpper wb
      match_score := r.match_score
      similarity_score := (scoreGet scores wb).getD 0 }
      :: buildRows comps scores dict2 nextNum2 rest

/-- drop_duplicates keeping the first row of every key. -/
def dedupByKey {α κ : Type} [DecidableEq κ] (key : α → κ) : List α → List α
  | [] => []
  | x :: xs => x :: dedupByKey key (xs.filter (fun y => decide (key y ≠ key x)))
termination_by l => l.length
decreasing_by
  simp only [List.length_cons]
  exact Nat.lt_succ_of_le (List.length_filter_le _ _)

/-- The dedup key of the final drop_duplicates. -/
def simKey (r : SimRow) : Nat × Nat × Option String :=
  (r.wb_sku, r.oz_sku, r.oz_manufacturer_size)

/-- The full output-row list before the final sort and dedup. -/
def simAllRows (db : Db) (cfg : SimilarityScoringConfig) (inputs : List String) :
    List SimRow :=
  buildRows (simComponents db cfg inputs) (simScores cfg (simRanked db cfg inputs))
    (mergeCodeToGroup (simComponents db cfg inputs))
    ((simComponents db cfg inputs).length + 1)
    (matchesForWbSkus db (simAllWb (simRanked db cfg inputs)) none)

/-- Model of search_similar_matches: validate the configuration, resolve the
ranked candidate pairs, and when any survive, build the clustered output
rows from the exact-match resolver, sort them by match_score descending and
keep the first row of every (wb_sku, oz_sku, oz_manufacturer_size)
triple. -/
def searchSimilarMatches (db : Db) (cfg : SimilarityScoringConfig)
    (inputs : List String) : Except String (List SimRow) :=
  if cfgValid cfg = true then
    if wbList inputs = [] then .ok []
    else if simRanked db cfg inputs = [] then .ok []
    else if matchesForWbSkus db (simAllWb (simRanked db cfg inputs)) none = [] then .ok []
    else .ok (dedupByKey simKey
      (sortByKey (fun r => -(r.match_score : Int)) (simAllRows db cfg inputs)))
  else .error "invalid scoring configuration"

theorem dedupByKey_nil {α κ : Type} [DecidableEq κ] (key : α → κ) :
    dedupByKey key ([] : List α) = [] := by
  simp only [dedupByKey]

theorem dedupByKey_cons {α κ : Type} [DecidableEq κ] (key : α → κ) (x : α) (xs : List α) :
    dedupByKey key (x :: xs)
      = x :: dedupByKey key (xs.filter (fun y => decide (key y ≠ key x))) := by
  simp only [dedupByKey]

theorem dedupByKey_subset_n {α κ : Type} [DecidableEq κ] (key : α → κ) :
    ∀ (n : Nat) (l : List α), l.length ≤ n → ∀ a ∈ dedupByKey key l, a ∈ l := by
  intro n
  induction n with
  | zero =>
    intro l hl a ha
    have h0 : l = [] := List.length_eq_zero.mp (Nat.le_zero.mp hl)
    subst h0
    rw [dedupByKey_nil] at ha
    cases ha
  | succ n ih =>
    intro l hl a ha
    cases l with
    | nil => rw [dedupByKey_nil] at ha; cases ha
    | cons x xs =>
      rw [dedupByKey_cons] at ha
      rcases List.mem_cons.mp ha with he | hm
      · exact he ▸ List.mem_cons_self _ _
      · have hlen : (xs.filter (fun y => decide (key y ≠ key x))).length ≤ n :=
          le_trans (List.length_filter_le _ _) (Nat.le_of_succ_le_succ hl)
        exact List.mem_cons_of_mem _ (List.mem_of_mem_filter (ih _ hlen a hm))

theorem dedupByKey_sub {α κ : Type} [DecidableEq κ] (key : α → κ) (l : List α) :
    ∀ a ∈ dedupByKey key l, a ∈ l :=
  dedupByKey_subset_n key l.length l le_rfl

theorem dedupByKey_pairwise_n {α κ : Type} [DecidableEq κ] (key : α → κ) :
    ∀ (n : Nat) (l : List α), l.length ≤ n →
      (dedupByKey key l).Pairwise (fun a b => key a ≠ key b) := by
  intro n
  induction n with
  | zero =>
    intro l hl
    have h0 : l = [] := List.length_eq_zero.mp (Nat.le_zero.mp hl)
    subst h0
    rw [dedupByKey_nil]
    exact List.Pairwise.nil
  | succ n ih =>
    intro l hl
    cases l with
    | nil => rw [dedupByKey_nil]; exact List.Pairwise.nil
    | cons x xs =>
      rw [dedupByKey_cons]
      refine List.pairwise_cons.mpr ⟨?_, ih _ (le_trans (List.length_filter_le _ _)
        (Nat.le_of_succ_le_succ hl))⟩
      intro b hb
      have hbf := dedupByKey_sub key _ b hb
      have hbne := (List.mem_filter.mp hbf).2
      rw [decide_eq_true_eq] at hbne
      exact Ne.symm hbne

theorem dedupByKey_pairwise {α κ : Type} [DecidableEq κ] (key : α → κ) (l : List α) :
    (dedupByKey key l).Pairwise (fun a b => key a ≠ key b) :=
  dedupByKey_pairwise_n key l.length l le_rfl

theorem dedupByKey_keeps_best_n {α κ : Type} [DecidableEq κ] (key : α → κ)
    (R : α → α → Prop) (hrefl : ∀ a, R a a) :
    ∀ (n : Nat) (l : List α), l.length ≤ n → l.Pairwise R →
      ∀ r ∈ dedupByKey key l, ∀ q ∈ l, key q = key r → R r q := by
  intro n
  induction n with
  | zero =>
    intro l hl _ r hr
    have h0 : l = [] := List.length_eq_zero.mp (Nat.le_zero.mp hl)
    subst h0
    rw [dedupByKey_nil] at hr
    cases hr
  | succ n ih =>
    intro l hl hp r hr q hq hk
    cases l with
    | nil => rw [dedupByKey_nil] at hr; cases hr
    | cons x xs =>
      rw [dedupByKey_cons] at hr
      obtain ⟨hhead, htail⟩ := List.pairwise_cons.mp hp
      rcases List.mem_cons.mp hr with he | hm
      · rcases List.mem_cons.mp hq with hqe | hqm
        · rw [he, hqe]; exact hrefl x
        · rw [he]; exact hhead q hqm
      · have hrf := dedupByKey_sub key _ r hm
        have hrne := (List.mem_filter.mp hrf).2
        rw [decide_eq_true_eq] at hrne
        rcases List.mem_cons.mp hq with hqe | hqm
        · rw [hqe] at hk
          exact absurd hk.symm hrne
        · have hqf : q ∈ xs.filter (fun y => decide (key y ≠ key x)) :=
            List.mem_filter.mpr ⟨hqm,
              decide_eq_true (fun hh => hrne (hk.symm.trans hh))⟩
          exact ih _ (le_trans (List.length_filter_le _ _)
            (Nat.le_of_succ_le_succ hl)) (htail.filter _) r hm q hqf hk

theorem dedupByKey_keeps_best {α κ : Type} [DecidableEq κ] (key : α → κ)
    (R : α → α → Prop) (hrefl : ∀ a, R a a) (l : List α) (hp : l.Pairwise R) :
    ∀ r ∈ dedupByKey key l, ∀ q ∈ l, key q = key r → R r q :=
  dedupByKey_keeps_best_n key R hrefl l.length l le_rfl hp

/-- C9: the similarity pipeline is a pure function of the store contents,
the scoring configuration and the input keys, so two invocations on
identical arguments return identical similarity_score (the surfaced
final_score), merge_code and group_number columns.  Every stage the model
fixes deterministically mirrors a deterministic stage of the source: the
candidate SQL ends in a total ORDER BY, the score and component dicts
iterate in insertion order, and the greedy split breaks ties by the
first-maximal element of the iteration. -/
theorem C9_determinism (db db2 : Db) (cfg cfg2 : SimilarityScoringConfig)
    (inputs inputs2 : List String) (hdb : db = db2) (hcfg : cfg = cfg2)
    (hin : inputs = inputs2) :
    (searchSimilarMatches db cfg inputs).map
        (fun rows => rows.map (fun r => (r.similarity_score, r.merge_code, r.group_number)))
      = (searchSimilarMatches db2 cfg2 inputs2).map
        (fun rows => rows.map (fun r => (r.similarity_score, r.merge_code, r.group_number))) := by
  subst hdb
  subst hcfg
  subst hin
  rfl

def dbC9w : Db := ⟨[], [], [], [], false, [], false⟩

/-- A valid configuration whose penalty multiplier is integral. -/
def cfgC9w : SimilarityScoringConfig := { no_last_penalty_multiplier := 1 }

theorem C9_determinism_witness :
    (searchSimilarMatches dbC9w cfgC9w ["7"]).map
        (fun rows => rows.map (fun r => (r.similarity_score, r.merge_code, r.group_number)))
      = (searchSimilarMatches dbC9w cfgC9w ["7"]).map
        (fun rows => rows.map (fun r => (r.similarity_score, r.merge_code, r.group_number))) :=
  C9_determinism dbC9w dbC9w cfgC9w cfgC9w ["7"] ["7"] rfl rfl rfl

/-- C10: in any successful result of search_similar_matches no two rows
share the (wb_sku, oz_sku, oz_manufacturer_size) triple; every returned row
comes from the pre-dedup row list, and its match_score is maximal among the
pre-dedup rows sharing its triple. -/
theorem C10_final_dedup (db : Db) (cfg : SimilarityScoringConfig) (inputs : List String)
    (out : List SimRow) (h : searchSimilarMatches db cfg inputs = .ok out) :
    out.Pairwise (fun a b => simKey a ≠ simKey b) ∧
    ∀ r ∈ out, r ∈ simAllRows db cfg inputs ∧
      ∀ q ∈ simAllRows db cfg inputs, simKey q = simKey r →
        q.match_score ≤ r.match_score := by
  unfold searchSimilarMatches at h
  by_cases hv : cfgValid cfg = true
  · rw [if_pos hv] at h
    by_cases h1 : wbList inputs = []
    · rw [if_pos h1] at h
      injection h with h
      subst h
      exact ⟨List.Pairwise.nil, fun r hr => absurd hr (List.not_mem_nil r)⟩
    · rw [if_neg h1] at h
      by_cases h2 : simRanked db cfg inputs = []
      · rw [if_pos h2] at h
        injection h with h
        subst h
        exact ⟨List.Pairwise.nil, fun r hr => absurd hr (List.not_mem_nil r)⟩
      · rw [if_neg h2] at h
        by_cases h3 : matchesForWbSkus db (simAllWb (simRanked db cfg inputs)) none = []
        · rw [if_pos h3] at h
          injection h with h
          subst h
          exact ⟨List.Pairwise.nil, fun r hr => absurd hr (List.not_mem_nil r)⟩
        · rw [if_neg h3] at h
          injection h with h
          subst h
          constructor
          · exact dedupByKey_pairwise simKey _
          · intro r hr
            have hrs : r ∈ sortByKey (fun r => -(r.match_score : Int))
                (simAllRows db cfg inputs) :=
              dedupByKey_sub simKey _ r hr
            refine ⟨mem_sortByKey.mp hrs, ?_⟩
            intro q hq hk
            have hsp := sortByKey_pairwise (fun r : SimRow => -(r.match_score : Int))
              (simAllRows db cfg inputs)
            have hpair : (sortByKey (fun r => -(r.match_score : Int))
                (simAllRows db cfg inputs)).Pairwise
                (fun a b => b.match_score ≤ a.match_score) := by
              refine hsp.imp ?_
              intro a b hab
              exact Nat.cast_le.mp (neg_le_neg_iff.mp hab)
            exact dedupByKey_keeps_best simKey
              (fun a b => b.match_score ≤ a.match_score) (fun a => le_refl _) _
              hpair r hr q (mem_sortByKey.mpr hq) hk
  · rw [if_neg hv] at h
    exact Except.noConfusion h

theorem C10_final_dedup_witness :
    ([] : List SimRow).Pairwise (fun a b => simKey a ≠ simKey b) :=
  (C10_final_dedup dbC9w cfgC9w ["7"] [] rfl).1

end DataForge
